import Mathlib

/-!
Shallow embedding of the evaluation core of the infp repository
(file src/src/eval/evaluator.cpp), together with theorems settling the
specification claims about it.

Modelling conventions:
* Heap-allocated tagged trees become the inductive type Tree; structural
  deep equality of trees is Lean equality.
* Machine integers (uint64_t) become Nat with explicit reduction mod 2 ^ 64
  at every operation that can wrap; division by zero, which is undefined
  behaviour in C++, is modelled as the distinguished error undefinedBehavior.
* Exceptions (EvalError, PartialEvalError, the notimplemented and unreachable
  macros, std::stoull argument errors) become an Except error channel; the
  distinction between partial and decorated complete errors, which only
  affects diagnostics, is not tracked.
* The recursive interpreter functions are indexed by a fuel parameter; every
  function consumes one unit of fuel on entry and passes the remainder to all
  recursive calls.  Running out of fuel yields the artificial error
  fuelExhausted, which the source has no counterpart for.
* Mutable interpreter state (the global environment, macro registry and
  grammar tables) is threaded explicitly as an Evaluator record.  A ghost
  field effects records, in order, which of the mutating primitives
  (define, define_macro, set, set_syntax, set_global_env) have executed their
  mutation; it has no influence on the behaviour of the model.
* Standard output (display, the ambiguity dump) and the file system
  (debug_save_file) are outside the state model; the corresponding primitives
  keep their argument checking but their I/O action is dropped, and the
  environment-dependent open-failure branch of debug_save_file is not taken.
-/

set_option maxHeartbeats 4000000

deriving instance DecidableEq for Except

namespace Eval

/-- Runtime value type of the interpreter: the tagged union Tree of
evaluator.cpp with variants Nil, Cons, Symbol, String, Nat64, Bool, Unit,
Closure and Prim.  Lean equality is exactly the deep structural equality
the source implements for trees. -/
inductive Tree where
  | nil
  | cons (head tail : Tree)
  | symbol (name : String)
  | string (val : String)
  | nat64 (val : Nat)
  | bool (val : Bool)
  | unit
  | closure (env formal es : Tree)
  | prim (id : Nat)
deriving DecidableEq, Repr

/-- Error outcomes of evaluation.  Source error messages are strings built
with toString; here only the kind of each error (and, where a claim needs it,
its payload) is retained. -/
inductive EvalErr where
  /-- An expect of the wrong variant failed (PartialEvalError in the source),
  or a std::get on the wrong variant aborted the process. -/
  | typeMismatch (e : Tree)
  | unboundSymbol (s : String)
  | headNotFunction (e : Tree)
  | nonexhaustiveMatch
  | matchFailed
  | indexOutOfRange
  | charOutOfRange
  /-- std::invalid_argument out of std::stoull. -/
  | invalidArgument
  /-- std::out_of_range out of std::stoull. -/
  | outOfRange
  /-- Undefined behaviour in the C++ source (division or remainder by zero). -/
  | undefinedBehavior
  /-- The notimplemented macro (unknown tree-pattern tag). -/
  | notImpl
  /-- Forest resolution produced no parse tree (notimplemented at line 612). -/
  | resolveFailed
  /-- Forest resolution produced several parse trees; the payload is the list
  of candidate trees the source dumps before aborting (lines 614 to 617). -/
  | ambiguous (ts : List Tree)
  /-- An unreachable assertion of the source. -/
  | invariantViolation
  /-- Artificial: the fuel of the embedding ran out. -/
  | fuelExhausted
deriving DecidableEq, Repr

/-- Shortcut for expect of Cons: destructure or throw (PartialEvalError). -/
def expectCons : Tree → Except EvalErr (Tree × Tree)
  | .cons h t => .ok (h, t)
  | e => .error (.typeMismatch e)

/-- Shortcut for expect of Symbol. -/
def expectSymbol : Tree → Except EvalErr String
  | .symbol s => .ok s
  | e => .error (.typeMismatch e)

/-- Shortcut for expect of String. -/
def expectString : Tree → Except EvalErr String
  | .string s => .ok s
  | e => .error (.typeMismatch e)

/-- Shortcut for expect of Nat64. -/
def expectNat64 : Tree → Except EvalErr Nat
  | .nat64 v => .ok v
  | e => .error (.typeMismatch e)

/-- Shortcut for expect of Bool. -/
def expectBool : Tree → Except EvalErr Bool
  | .bool b => .ok b
  | e => .error (.typeMismatch e)

/-- Shortcut for expect of Nil. -/
def expectNil : Tree → Except EvalErr Unit
  | .nil => .ok ()
  | e => .error (.typeMismatch e)

/-- Shortcut for expect of Closure; returns the closure tree itself. -/
def expectClosureT : Tree → Except EvalErr Tree
  | .closure env formal es => .ok (.closure env formal es)
  | e => .error (.typeMismatch e)

/-- Environment extension (Evaluator::extend): entries are two-element lists
consed onto the front of the environment. -/
def extend (env : Tree) (s : String) (e : Tree) : Tree :=
  .cons (.cons (.symbol s) (.cons e .nil)) env

/-- Environment lookup (Evaluator::lookup): walks the spine, skips malformed
entries, and on the first entry whose first element is the requested symbol
returns its value, with a Unit value meaning declared-but-unassigned
(reported as absent, like the source returning nullptr). -/
def lookup : Tree → String → Option Tree
  | .cons curr rest, s =>
    match curr with
    | .cons lhs t =>
      match t with
      | .cons rhs _ =>
        if lhs = .symbol s then (if rhs = .unit then none else some rhs)
        else lookup rest s
      | _ => lookup rest s
    | _ => lookup rest s
  | _, _ => none

/-- Pattern matcher (Evaluator::match; renamed because match is a Lean
keyword).  The by-reference environment of the source becomes the Tree
component of the result, which carries the bindings made so far even when the
overall match fails; expect failures inside the matcher surface as errors. -/
def matchPat (e pat env : Tree) (quoteMode : Bool) : Except EvalErr (Bool × Tree) :=
  match pat, quoteMode with
  | .symbol s, false =>
    .ok (true, if s = "_" then env else extend env s e)
  | .cons h t, qm =>
    if h = .symbol ("quote") ∧ qm = false then
      match t with
      | .cons ph _ => matchPat e ph env true
      | t => .error (.typeMismatch t)
    else if h = .symbol ("unquote") ∧ qm = true then
      match t with
      | .cons ph _ => matchPat e ph env false
      | t => .error (.typeMismatch t)
    else if h = .symbol ("...") then
      .ok ((match e with | .nil => true | .cons _ _ => true | _ => false), env)
    else
      match e with
      | .cons eh et =>
        match matchPat eh h env qm with
        | .error er => .error er
        | .ok (false, env1) => .ok (false, env1)
        | .ok (true, env1) => matchPat et t env1 qm
      | _ => .ok (false, env)
  | pat, _ => .ok (decide (e = pat), env)

/-- Reduction modulo 2 ^ 64, the wrap-around of uint64_t arithmetic. -/
def wrap64 (n : Nat) : Nat := n % 2 ^ 64

/-- Characters the C locale treats as whitespace (skipped by strtoull). -/
def isSpaceChar (c : Char) : Bool :=
  c = ' ' ∨ (9 ≤ c.toNat ∧ c.toNat ≤ 13)

/-- Value of a character as a digit in the given base, if it is one
(0-9, a-z, A-Z as in strtoull). -/
def digitVal (base : Nat) (c : Char) : Option Nat :=
  if '0' ≤ c ∧ c ≤ '9' ∧ c.toNat - 48 < base then some (c.toNat - 48)
  else if 'a' ≤ c ∧ c ≤ 'z' ∧ c.toNat - 87 < base then some (c.toNat - 87)
  else if 'A' ≤ c ∧ c ≤ 'Z' ∧ c.toNat - 55 < base then some (c.toNat - 55)
  else none

/-- Longest-prefix digit parse of strtoull: accumulate digits of the given
base, stopping at the first non-digit. -/
def parseDigitsAcc (base : Nat) : List Char → Nat → Nat
  | c :: rest, acc =>
    match digitVal base c with
    | some d => parseDigitsAcc base rest (acc * base + d)
    | none => acc
  | [], acc => acc

/-- Optional sign handling of strtoull. -/
def stoullSign : List Char → Bool × List Char
  | '-' :: rest => (true, rest)
  | '+' :: rest => (false, rest)
  | rest => (false, rest)

/-- Base auto-detection of strtoull under base 0: a 0x or 0X prefix followed
by a hexadecimal digit selects base 16 and consumes the prefix; otherwise a
leading 0 selects base 8 (the zero stays part of the digit run); otherwise
base 10. -/
def stoullBase : List Char → Nat × List Char
  | '0' :: x :: d :: rest =>
    if (x = 'x' ∨ x = 'X') ∧ (digitVal 16 d).isSome = true then (16, d :: rest)
    else (8, '0' :: x :: d :: rest)
  | '0' :: rest => (8, '0' :: rest)
  | rest => (10, rest)

/-- Model of std::stoull(s, nullptr, 0), the whole body of the string_nat64
primitive (evaluator.cpp line 452): skip C whitespace, take an optional sign,
auto-detect the base (stoullBase), parse the longest run of digits of that
base, fail with invalid_argument when there is no digit at all, fail with
out_of_range when the value exceeds the uint64_t range, and negate modulo
2 ^ 64 under a minus sign. -/
def stoullBase0 (s : String) : Except EvalErr Nat :=
  let sn := stoullSign (s.data.dropWhile isSpaceChar)
  let bs := stoullBase sn.2
  match bs.2 with
  | c :: _ =>
    match digitVal bs.1 c with
    | some _ =>
      let v := parseDigitsAcc bs.1 bs.2 0
      if v ≥ 2 ^ 64 then .error .outOfRange
      else .ok (if sn.1 then (2 ^ 64 - v) % 2 ^ 64 else v)
    | none => .error .invalidArgument
  | [] => .error .invalidArgument

/-- Modelled from the spec: Tree::escapeString lives in the tree header,
which is not under src; the spec fixes the escape alphabet as backslash
followed by one of backslash, double quote, a, b, f, n, r, t, v.  Escaping
maps those nine characters to their two-character escapes and keeps every
other byte. -/
def escapeChar (c : Char) : List Char :=
  if c = '\\' then ['\\', '\\']
  else if c = '"' then ['\\', '"']
  else if c.toNat = 7 then ['\\', 'a']
  else if c.toNat = 8 then ['\\', 'b']
  else if c.toNat = 12 then ['\\', 'f']
  else if c.toNat = 10 then ['\\', 'n']
  else if c.toNat = 13 then ['\\', 'r']
  else if c.toNat = 9 then ['\\', 't']
  else if c.toNat = 11 then ['\\', 'v']
  else [c]

/-- Modelled from the spec: Tree::escapeString (see escapeChar). -/
def escapeString (s : String) : String := ⟨s.data.flatMap escapeChar⟩

/-- Modelled from the spec: the inverse mapping of one escape letter. -/
def unescapeCode (c : Char) : Option Char :=
  if c = '\\' then some '\\'
  else if c = '"' then some '"'
  else if c = 'a' then some (Char.ofNat 7)
  else if c = 'b' then some (Char.ofNat 8)
  else if c = 'f' then some (Char.ofNat 12)
  else if c = 'n' then some (Char.ofNat 10)
  else if c = 'r' then some (Char.ofNat 13)
  else if c = 't' then some (Char.ofNat 9)
  else if c = 'v' then some (Char.ofNat 11)
  else none

/-- Modelled from the spec: Tree::unescapeString; a backslash followed by a
character outside the escape alphabet, or a trailing backslash, is an error. -/
def unescapeChars : List Char → Except EvalErr (List Char)
  | [] => .ok []
  | '\\' :: rest =>
    match rest with
    | c :: rest2 =>
      match unescapeCode c with
      | some d => do
        let r ← unescapeChars rest2
        .ok (d :: r)
      | none => .error .invalidArgument
    | [] => .error .invalidArgument
  | c :: rest => do
    let r ← unescapeChars rest
    .ok (c :: r)

mutual

/-- Modelled from the spec: Tree::toString, the S-expression printer used by
the print primitive and by error messages; the exact text is not fixed by the
spec and no claim depends on it. -/
def toStr : Tree → String
  | .nil => "()"
  | .cons h t => "(" ++ toStr h ++ toStrTail t
  | .symbol s => s
  | .string s => "\"" ++ escapeString s ++ "\""
  | .nat64 v => toString v
  | .bool b => if b then "true" else "false"
  | .unit => "#unit"
  | .closure _ _ _ => "#closure"
  | .prim i => "#prim" ++ toString i

/-- Modelled from the spec: continuation of toStr along a cons spine. -/
def toStrTail : Tree → String
  | .nil => ")"
  | .cons h t => " " ++ toStr h ++ toStrTail t
  | e => " . " ++ toStr e ++ ")"

end

/-- Mutable state of one Evaluator object: the global environment pointer,
the macro registry (spec: a sequence of closures plus a name-to-index map,
the definitions being outside src), and the grammar state.  The field
effects is a ghost trace: each mutating primitive conses its own name at the
moment the source performs the mutation; it never influences behaviour.
The primitive registry is immutable after construction (addPrimitive is only
called from the constructor) and is therefore modelled as the constant
primRegistry rather than a state field. -/
structure Evaluator where
  globalEnv : Tree
  macros : List (String × Tree)
  symbolNames : List String
  nameSymbols : List (String × Nat)
  patternNames : List String
  ruleNames : List String
  patterns : Tree
  rules : Tree
  effects : List String
deriving DecidableEq, Repr

/-- State-plus-exception monad of the embedding: C++ exceptions carry the
mutated state with them, so errors are paired with the state at throw time. -/
abbrev M (α : Type) := Evaluator → Except EvalErr α × Evaluator

/-- Return. -/
def mret {α} (a : α) : M α := fun σ => (.ok a, σ)

/-- Throw. -/
def mthrow {α} (e : EvalErr) : M α := fun σ => (.error e, σ)

/-- Lift a pure fallible computation. -/
def liftExc {α} (r : Except EvalErr α) : M α := fun σ => (r, σ)

/-- Sequencing with exception propagation. -/
def mbind {α β} (x : M α) (f : α → M β) : M β := fun σ =>
  match x σ with
  | (.ok a, σ1) => f a σ1
  | (.error er, σ1) => (.error er, σ1)

/-- Lift a pure fallible primitive result to a no-tail-call Result (the
implicit Tree-to-Result conversion of the source). -/
def liftPE (r : Except EvalErr Tree) : M (Option Tree × Tree) := fun σ =>
  (r.map (fun t => ((none : Option Tree), t)), σ)

/-- A state mutation together with its ghost-trace record.  All five mutating
primitives go through this combinator; upd never touches the effects field. -/
def effectful (name : String) (upd : Evaluator → Evaluator) : M Unit := fun σ =>
  (.ok (), { upd σ with effects := name :: σ.effects })

/-- Clause loop of the match primitive (evaluator.cpp lines 325 to 343):
try each clause in order; a clause whose pattern matches yields the new
environment and the unevaluated clause body; exhaustion (or a non-cons
clause-list tail, which ends the source loop the same way) is the
nonexhaustive-patterns error. -/
def matchClauses (target env : Tree) : Tree → Except EvalErr (Tree × Tree)
  | .cons c rest =>
    match expectCons c with
    | .error er => .error er
    | .ok (pat, u) =>
      match matchPat target pat env false with
      | .error er => .error er
      | .ok (true, newEnv) =>
        match expectCons u with
        | .error er => .error er
        | .ok (expr, _) => .ok (newEnv, expr)
      | .ok (false, _) => matchClauses target env rest
  | _ => .error .nonexhaustiveMatch

/-- First phase of letrec (lines 361 to 366): extend the environment with a
Unit placeholder for every definition, counting the definitions. -/
def letrecInit (env : Tree) : Tree → Except EvalErr (Tree × Nat)
  | .cons d rest =>
    match expectCons d with
    | .error er => .error er
    | .ok (lhs, _) =>
      match expectSymbol lhs with
      | .error er => .error er
      | .ok s =>
        match letrecInit (extend env s .unit) rest with
        | .error er => .error er
        | .ok (env2, k) => .ok (env2, k + 1)
  | _ => .ok (env, 0)

/-- Replace the value slot of one environment entry (a two-element list). -/
def setFrameVal (frame v : Tree) : Tree :=
  match frame with
  | .cons s t =>
    match t with
    | .cons _ tl => .cons s (.cons v tl)
    | t => .cons s t
  | f => f

/-- Functional counterpart of writing through refs in letrec (line 372):
replace the value of the d-th frame from the front of the environment.
The source writes through a pointer into the shared cell, so a closure that
captured the environment earlier sees the update; a pure tree cannot express
that aliasing, and no claim depends on it. -/
def envSetAt (env : Tree) (d : Nat) (v : Tree) : Tree :=
  match env, d with
  | .cons frame rest, 0 => .cons (setFrameVal frame v) rest
  | .cons frame rest, d2 + 1 => .cons frame (envSetAt rest d2 v)
  | e, _ => e

/-- Search loop of the set primitive (lines 401 to 408): walk the spine,
skip entries that are not conses, and abort (std::get on the wrong variant
terminates the process) when an entry's tail is not a cons; report whether a
binding for the symbol was found. -/
def envSetFind (env : Tree) (s : String) : Except EvalErr Bool :=
  match env with
  | .cons curr rest =>
    match curr with
    | .cons lhs t =>
      match t with
      | .cons _ _ =>
        if lhs = .symbol s then .ok true else envSetFind rest s
      | _ => .error .invariantViolation
    | _ => envSetFind rest s
  | _ => .ok false

/-- The primitive registry in construction order: name and evalArgs flag of
every addPrimitive call of the constructor (lines 302 to 541); the position
in this list is the Prim id. -/
def primRegistry : List (String × Bool) :=
  [("lambda", false), ("cond", false), ("quote", false), ("unquote", false),
   ("match", false), ("let", false), ("letrec", false), ("define", false),
   ("define_macro", false), ("set", false), ("begin", false),
   ("eval", true), ("env", true), ("get_syntax", true), ("set_syntax", true),
   ("get_global_env", true), ("set_global_env", true),
   ("nil", true), ("cons", true), ("list", true), ("id", true),
   ("string_symbol", true), ("string_nat64", true), ("string_escape", true),
   ("string_unescape", true), ("string_length", true), ("string_char", true),
   ("char_string", true), ("string_concat", true), ("string_substr", true),
   ("string_eq", true),
   ("minus", true), ("add", true), ("sub", true), ("mul", true),
   ("div", true), ("mod", true),
   ("le", true), ("lt", true), ("ge", true), ("gt", true), ("eq", true),
   ("neq", true),
   ("not", true), ("and", true), ("or", true), ("implies", true),
   ("iff", true),
   ("print", true), ("display", true), ("debug_save_file", true)]

/-- Index of a primitive name in the registry (the namePrims map). -/
def primIdx (s : String) : Option Nat :=
  primRegistry.findIdx? (fun p => p.1 == s)

/-- Symbol evaluation (lines 677 to 684): environment lookup first (with a
Unit binding reported as absent), then the primitive name map, then the
unbound-symbol error. -/
def symLookup (env : Tree) (s : String) : Except EvalErr Tree :=
  match lookup env s with
  | some v => .ok v
  | none =>
    match primIdx s with
    | some i => .ok (.prim i)
    | none => .error (.unboundSymbol s)

/-- The unary primitive macro (lines 491 to 495) at Nat64: first argument
only, wrong variants are expect failures. -/
def unaryNat (op : Nat → Nat) (e : Tree) : Except EvalErr Tree := do
  let (lhs, _) ← expectCons e
  let v ← expectNat64 lhs
  .ok (.nat64 (op v))

/-- The binary primitive macro (lines 496 to 501) at Nat64; the operation may
fail (division by zero is undefined behaviour). -/
def binNat (op : Nat → Nat → Except EvalErr Nat) (e : Tree) : Except EvalErr Tree := do
  let (lhs, t) ← expectCons e
  let (rhs, _) ← expectCons t
  let a ← expectNat64 lhs
  let b ← expectNat64 rhs
  let v ← op a b
  .ok (.nat64 v)

/-- The binpred primitive macro (lines 502 to 507) at Nat64. -/
def binNatPred (op : Nat → Nat → Bool) (e : Tree) : Except EvalErr Tree := do
  let (lhs, t) ← expectCons e
  let (rhs, _) ← expectCons t
  let a ← expectNat64 lhs
  let b ← expectNat64 rhs
  .ok (.bool (op a b))

/-- The unary primitive macro at Bool. -/
def unaryBool (op : Bool → Bool) (e : Tree) : Except EvalErr Tree := do
  let (lhs, _) ← expectCons e
  let b ← expectBool lhs
  .ok (.bool (op b))

/-- The binary primitive macro at Bool. -/
def binBool (op : Bool → Bool → Bool) (e : Tree) : Except EvalErr Tree := do
  let (lhs, t) ← expectCons e
  let (rhs, _) ← expectCons t
  let a ← expectBool lhs
  let b ← expectBool rhs
  .ok (.bool (op a b))

mutual

/-- Pattern compiler Evaluator::treePattern (lines 82 to 105), with the NFA
construction of the lexer (black box per the interface section of the spec)
abstracted away: only the tree destructuring and its failure modes remain.
The explicit matches on cons cells mirror calls of expect of Cons. -/
def treePatternOk : Tree → Except EvalErr Unit
  | .cons tag t =>
    match expectSymbol tag with
    | .error er => .error er
    | .ok stag =>
      if stag = "empty" ∨ stag = "any" ∨ stag = "utf8seg" then .ok ()
      else if stag = "char" ∨ stag = "except" ∨ stag = "word" then
        match t with
        | .cons h _ =>
          (match expectString h with
           | .error er => .error er
           | .ok _ => .ok ())
        | t => .error (.typeMismatch t)
      else if stag = "range" then
        match t with
        | .cons lb u =>
          (match u with
           | .cons ub _ =>
             (match expectNat64 lb with
              | .error er => .error er
              | .ok _ =>
                match expectNat64 ub with
                | .error er => .error er
                | .ok _ => .ok ())
           | u => .error (.typeMismatch u))
        | t => .error (.typeMismatch t)
      else if stag = "alt" ∨ stag = "concat" then treePatternListOk t
      else if stag = "opt" ∨ stag = "star" ∨ stag = "plus" then
        match t with
        | .cons h _ => treePatternOk h
        | t => .error (.typeMismatch t)
      else .error .notImpl
  | e => .error (.typeMismatch e)

/-- Evaluator::listPatterns (lines 107 to 113): validate each element of a
cons chain; a non-cons tail ends the loop silently. -/
def treePatternListOk : Tree → Except EvalErr Unit
  | .cons h t =>
    match treePatternOk h with
    | .error er => .error er
    | .ok _ => treePatternListOk t
  | _ => .ok ()

end

/-- Modelled from the spec: Evaluator::getSymbol is declared in the
evaluator header, which is not under src.  It interns a grammar symbol name:
the existing ID from nameSymbols if present, otherwise the next index of
symbolNames, which is recorded in both tables (reserved IDs 0 and 1 are
seeded before any call). -/
def getSymbol (σ : Evaluator) (s : String) : Nat × Evaluator :=
  match σ.nameSymbols.find? (fun p => p.1 == s) with
  | some p => (p.2, σ)
  | none =>
    let id := σ.symbolNames.length
    (id, { σ with symbolNames := σ.symbolNames ++ [s],
                  nameSymbols := σ.nameSymbols ++ [(s, id)] })

/-- Evaluator::listSymbols (lines 115 to 123): destructure each rhs entry
into a symbol and a precedence, interning the symbol. -/
def listSymbolsRun : Evaluator → Tree → Except EvalErr (List (Nat × Nat)) × Evaluator
  | σ, .cons h rest =>
    (match (do
        let (s0, t) ← expectCons h
        let (pre, _) ← expectCons t
        let sname ← expectSymbol s0
        let pv ← expectNat64 pre
        (.ok (sname, pv) : Except EvalErr (String × Nat))) with
     | .error er => (.error er, σ)
     | .ok (sname, pv) =>
       let iv := getSymbol σ sname
       let lr := listSymbolsRun iv.2 rest
       match lr.1 with
       | .ok l => (.ok ((iv.1, pv) :: l), lr.2)
       | .error er => (.error er, lr.2))
  | σ, _ => (.ok [], σ)

/-- One pattern entry of setSyntax (lines 143 to 155).  The lexer and parser
addPattern calls and their sequential-ID assertions are black boxes that
succeed by the interface contract (invariant I2); state changes and failure
order follow the source: destructure and read the category symbol, intern it,
read the entry name, append it to patternNames, then validate the pattern
body and the precedence. -/
def setSyntaxPat1 (σ : Evaluator) (entry : Tree) : Except EvalErr Unit × Evaluator :=
  match (do
      let (name, t) ← expectCons entry
      let (lhs, u) ← expectCons t
      let (rhs, _) ← expectCons u
      let (sym0, v) ← expectCons lhs
      let (pre, _) ← expectCons v
      let sname ← expectSymbol sym0
      (.ok (name, sname, rhs, pre) : Except EvalErr (Tree × String × Tree × Tree))) with
  | .error er => (.error er, σ)
  | .ok (name, sname, rhs, pre) =>
    let iv := if sname = "_" then (0, σ) else getSymbol σ sname
    match expectSymbol name with
    | .error er => (.error er, iv.2)
    | .ok pname =>
      let σ2 := { iv.2 with patternNames := iv.2.patternNames ++ [pname] }
      match treePatternOk rhs with
      | .error er => (.error er, σ2)
      | .ok _ =>
        match expectNat64 pre with
        | .error er => (.error er, σ2)
        | .ok _ => (.ok (), σ2)

/-- Pattern loop of setSyntax: process entries until a non-cons tail. -/
def setSyntaxPats : Evaluator → Tree → Except EvalErr Unit × Evaluator
  | σ, .cons entry rest =>
    (let r1 := setSyntaxPat1 σ entry
     match r1.1 with
     | .ok _ => setSyntaxPats r1.2 rest
     | .error er => (.error er, r1.2))
  | σ, _ => (.ok (), σ)

/-- One rule entry of setSyntax (lines 158 to 169); the addRule call is a
black box as for patterns, and the evaluation order of its arguments (the
precedence read and the rhs symbol interning), unspecified in C++, is fixed
here as name append, then rhs interning, then precedence read. -/
def setSyntaxRule1 (σ : Evaluator) (entry : Tree) : Except EvalErr Unit × Evaluator :=
  match (do
      let (name, t) ← expectCons entry
      let (lhs, u) ← expectCons t
      let (rhs, _) ← expectCons u
      let (sym0, v) ← expectCons lhs
      let (pre, _) ← expectCons v
      let sname ← expectSymbol sym0
      (.ok (name, sname, rhs, pre) : Except EvalErr (Tree × String × Tree × Tree))) with
  | .error er => (.error er, σ)
  | .ok (name, sname, rhs, pre) =>
    let iv := if sname = "_" then (1, σ) else getSymbol σ sname
    match expectSymbol name with
    | .error er => (.error er, iv.2)
    | .ok rname =>
      let σ2 := { iv.2 with ruleNames := iv.2.ruleNames ++ [rname] }
      let lr := listSymbolsRun σ2 rhs
      match lr.1 with
      | .error er => (.error er, lr.2)
      | .ok _ =>
        match expectNat64 pre with
        | .error er => (.error er, lr.2)
        | .ok _ => (.ok (), lr.2)

/-- Rule loop of setSyntax. -/
def setSyntaxRules : Evaluator → Tree → Except EvalErr Unit × Evaluator
  | σ, .cons entry rest =>
    (let r1 := setSyntaxRule1 σ entry
     match r1.1 with
     | .ok _ => setSyntaxRules r1.2 rest
     | .error er => (.error er, r1.2))
  | σ, _ => (.ok (), σ)

/-- Evaluator::setSyntax (lines 126 to 170): clear all tables and the
lexer/parser state, store the new pattern and rule trees, seed the two
reserved symbols, then install every pattern and rule.  A failure part way
leaves the tables partially rebuilt, exactly as in the source. -/
def setSyntaxRun (σ : Evaluator) (p r : Tree) : Except EvalErr Unit × Evaluator :=
  let σ0 := { σ with symbolNames := ["_", "_"], nameSymbols := [],
                     patternNames := [], ruleNames := [],
                     patterns := p, rules := r }
  let rp := setSyntaxPats σ0 p
  match rp.1 with
  | .ok _ => setSyntaxRules rp.2 r
  | .error er => (.error er, rp.2)

mutual

/-- Evaluator::eval (lines 673 to 728): the tail-call driving loop.  Symbols
resolve through symLookup; a cons evaluates its head and applies a primitive
(arguments pre-evaluated when evalArgs is set) or a closure; a primitive
Result carrying an environment, and every closure body, continue the loop as
a tail call; everything else is self-evaluating.  The catch block that merely
decorates partial errors with the surrounding tree is not tracked.  Each
recursive step consumes one unit of fuel. -/
def eval (fuel : Nat) (env e : Tree) : M Tree :=
  match fuel with
  | 0 => mthrow .fuelExhausted
  | n + 1 =>
    match e with
    | .symbol s => liftExc (symLookup env s)
    | .cons head tail =>
      mbind (eval n env head) fun ehead =>
      match ehead with
      | .prim id =>
        (match primRegistry[id]? with
         | none => mthrow .invariantViolation
         | some pr =>
           mbind (if pr.2 then evalList n env tail else mret tail) fun args =>
           mbind (applyPrim n pr.1 env args) fun res =>
           match res.1 with
           | none => mret res.2
           | some env2 => eval n env2 res.2)
      | .closure cenv formal es =>
        mbind (evalList n env tail) fun params =>
        (match matchPat params formal cenv false with
         | .error er => mthrow er
         | .ok (false, _) => mthrow .matchFailed
         | .ok (true, env2) =>
           mbind (beginList n env2 es) fun e2 => eval n env2 e2)
      | ehead => mthrow (.headNotFunction ehead)
    | e => mret e
termination_by structural fuel

/-- Evaluator::evalList (lines 731 to 740): evaluate every element of a
list; a non-cons, non-nil tail is itself evaluated.  The pointer-identity
preservation of the source is invisible to structural equality. -/
def evalList (fuel : Nat) (env e : Tree) : M Tree :=
  match fuel with
  | 0 => mthrow .fuelExhausted
  | n + 1 =>
    match e with
    | .nil => mret .nil
    | .cons head tail =>
      mbind (eval n env head) fun eh =>
      mbind (evalList n env tail) fun et =>
      mret (.cons eh et)
    | e => eval n env e
termination_by structural fuel

/-- Evaluator::beginList (lines 744 to 755): evaluate every element but the
last for its side effects and return the last element unevaluated; Unit for
the empty list; an expect-of-Nil failure when the final tail is not nil. -/
def beginList (fuel : Nat) (env e : Tree) : M Tree :=
  match fuel with
  | 0 => mthrow .fuelExhausted
  | n + 1 =>
    match e with
    | .cons head tail =>
      (match tail with
       | .cons _ _ => mbind (eval n env head) fun _ => beginList n env tail
       | .nil => mret head
       | t => mthrow (.typeMismatch t))
    | .nil => mret .unit
    | e => mthrow (.typeMismatch e)
termination_by structural fuel

/-- Evaluator::quasiquote (lines 758 to 767): structural traversal that
evaluates the first argument of a cons headed by the symbol unquote and
rebuilds every other cons. -/
def quasiquote (fuel : Nat) (env e : Tree) : M Tree :=
  match fuel with
  | 0 => mthrow .fuelExhausted
  | n + 1 =>
    match e with
    | .cons head tail =>
      if head = .symbol ("unquote") then
        match tail with
        | .cons h _ => eval n env h
        | t => mthrow (.typeMismatch t)
      else
        mbind (quasiquote n env head) fun qh =>
        mbind (quasiquote n env tail) fun qt =>
        mret (.cons qh qt)
    | e => mret e
termination_by structural fuel

/-- Definition loop of the let primitive (lines 349 to 354): evaluate each
right-hand side in the environment built so far and extend. -/
def letDefs (fuel : Nat) (env defs : Tree) : M Tree :=
  match fuel with
  | 0 => mthrow .fuelExhausted
  | n + 1 =>
    match defs with
    | .cons d rest =>
      mbind (liftExc (expectCons d)) fun pr1 =>
      mbind (liftExc (expectCons pr1.2)) fun pr2 =>
      mbind (liftExc (expectSymbol pr1.1)) fun s =>
      mbind (eval n env pr2.1) fun v =>
      letDefs n (extend env s v) rest
    | _ => mret env
termination_by structural fuel

/-- Second phase of letrec (lines 368 to 373): evaluate each right-hand side
under the placeholder-extended environment and assign it into the cell of
definition i (depth count - 1 - i from the front). -/
def letrecEval (fuel : Nat) (env defs : Tree) (i count : Nat) : M Tree :=
  match fuel with
  | 0 => mthrow .fuelExhausted
  | n + 1 =>
    match defs with
    | .cons d rest =>
      mbind (liftExc (expectCons d)) fun pr1 =>
      mbind (liftExc (expectCons pr1.2)) fun pr2 =>
      mbind (eval n env pr2.1) fun v =>
      letrecEval n (envSetAt env (count - 1 - i) v) rest (i + 1) count
    | _ => mret env
termination_by structural fuel

/-- The body of every primitive of the constructor (lines 302 to 541),
dispatched on the primitive name; the helper argument is called e as in the
source lambdas.  Forms receive unevaluated arguments, procedures receive the
result of evalList (the caller distinguishes them through the registry). -/
def applyPrim (fuel : Nat) (name : String) (env e : Tree) : M (Option Tree × Tree) :=
  match fuel with
  | 0 => mthrow .fuelExhausted
  | n + 1 =>
    match name with
    | "lambda" => liftPE (do
        let (formal, es) ← expectCons e
        .ok (.closure env formal es))
    | "cond" =>
      mbind (liftExc (expectCons e)) fun pr1 =>
      mbind (liftExc (expectCons pr1.2)) fun pr2 =>
      mbind (eval n env pr1.1) fun tv =>
      mbind (liftExc (expectBool tv)) fun b =>
      mret (some env,
        if b then pr2.1 else (match pr2.2 with | .cons x _ => x | _ => .unit))
    | "quote" =>
      mbind (liftExc (expectCons e)) fun pr =>
      mbind (quasiquote n env pr.1) fun v =>
      mret (none, v)
    | "unquote" =>
      mbind (liftExc (expectCons e)) fun pr =>
      mbind (eval n env pr.1) fun v =>
      mret (none, v)
    | "match" =>
      mbind (liftExc (expectCons e)) fun pr1 =>
      mbind (liftExc (expectCons pr1.2)) fun pr2 =>
      mbind (eval n env pr1.1) fun target =>
      (match matchClauses target env pr2.1 with
       | .error er => mthrow er
       | .ok (newEnv, expr) => mret (some newEnv, expr))
    | "let" =>
      mbind (liftExc (expectCons e)) fun pr =>
      mbind (letDefs n env pr.1) fun env2 =>
      mbind (beginList n env2 pr.2) fun e2 =>
      mret (some env2, e2)
    | "letrec" =>
      mbind (liftExc (expectCons e)) fun pr =>
      mbind (liftExc (letrecInit env pr.1)) fun ic =>
      mbind (letrecEval n ic.1 pr.1 0 ic.2) fun env2 =>
      mbind (beginList n env2 pr.2) fun e2 =>
      mret (some env2, e2)
    | "define" =>
      mbind (liftExc (expectCons e)) fun pr1 =>
      mbind (liftExc (expectCons pr1.2)) fun pr2 =>
      mbind (liftExc (expectSymbol pr1.1)) fun s =>
      mbind (eval n env pr2.1) fun v =>
      mbind (effectful ("define")
        (fun σ => { σ with globalEnv := extend σ.globalEnv s v })) fun _ =>
      mret (none, .unit)
    | "define_macro" =>
      mbind (liftExc (expectCons e)) fun pr1 =>
      mbind (liftExc (expectCons pr1.2)) fun pr2 =>
      mbind (liftExc (expectSymbol pr1.1)) fun s =>
      mbind (eval n env pr2.1) fun v =>
      mbind (liftExc (expectClosureT v)) fun cl =>
      mbind (effectful ("define_macro")
        (fun σ => { σ with macros := σ.macros ++ [(s, cl)] })) fun _ =>
      mret (none, .unit)
    | "set" =>
      mbind (liftExc (expectCons e)) fun pr1 =>
      mbind (liftExc (expectCons pr1.2)) fun pr2 =>
      mbind (eval n env pr2.1) fun _ =>
      mbind (liftExc (expectSymbol pr1.1)) fun s =>
      mbind (liftExc (envSetFind env s)) fun found =>
      if found then
        -- the write goes through a pointer into a cell shared with the
        -- caller's environment; that aliasing has no pure-tree counterpart,
        -- so only the ghost trace records that the mutation happened
        mbind (effectful ("set") id) fun _ => mret (none, .unit)
      else mthrow (.unboundSymbol s)
    | "begin" =>
      mbind (beginList n env e) fun e2 =>
      mret (some env, e2)
    | "eval" =>
      mbind (liftExc (expectCons e)) fun pr =>
      mret (some (match pr.2 with | .cons env2 _ => env2 | _ => env), pr.1)
    | "env" => mret (none, env)
    | "get_syntax" =>
      fun σ => (.ok (none, .cons σ.patterns (.cons σ.rules .nil)), σ)
    | "set_syntax" =>
      mbind (liftExc (expectCons e)) fun pr1 =>
      mbind (liftExc (expectCons pr1.2)) fun pr2 =>
      mbind (effectful ("set_syntax") id) fun _ =>
      mbind (fun σ => setSyntaxRun σ pr1.1 pr2.1) fun _ =>
      mret (none, .unit)
    | "get_global_env" => fun σ => (.ok (none, σ.globalEnv), σ)
    | "set_global_env" =>
      mbind (liftExc (expectCons e)) fun pr =>
      mbind (effectful ("set_global_env")
        (fun σ => { σ with globalEnv := pr.1 })) fun _ =>
      mret (none, .unit)
    | "nil" => mret (none, .nil)
    | "cons" => liftPE (do
        let (lhs, t) ← expectCons e
        let (rhs, _) ← expectCons t
        .ok (.cons lhs rhs))
    | "list" => mret (none, e)
    | "id" => liftPE (do
        let (h, _) ← expectCons e
        .ok h)
    | "string_symbol" => liftPE (do
        let (h, _) ← expectCons e
        let s ← expectString h
        .ok (.symbol s))
    | "string_nat64" => liftPE (do
        let (h, _) ← expectCons e
        let s ← expectString h
        let v ← stoullBase0 s
        .ok (.nat64 v))
    | "string_escape" => liftPE (do
        let (h, _) ← expectCons e
        let s ← expectString h
        .ok (.string (escapeString s)))
    | "string_unescape" => liftPE (do
        let (h, _) ← expectCons e
        let s ← expectString h
        let r ← unescapeChars s.data
        .ok (.string ⟨r⟩))
    | "string_length" => liftPE (do
        -- the source counts bytes; counting characters agrees on ASCII and
        -- no claim involves multi-byte strings
        let (h, _) ← expectCons e
        let s ← expectString h
        .ok (.nat64 s.length))
    | "string_char" => liftPE (do
        let (lhs, t) ← expectCons e
        let (rhs, _) ← expectCons t
        let sv ← expectString lhs
        let iv ← expectNat64 rhs
        if iv ≥ sv.length then .error .indexOutOfRange
        else .ok (.nat64 (sv.data.getD iv (Char.ofNat 0)).toNat))
    | "char_string" => liftPE (do
        let (chr, _) ← expectCons e
        let cv ← expectNat64 chr
        if cv ≥ 256 then .error .charOutOfRange
        else .ok (.string ⟨[Char.ofNat cv]⟩))
    | "string_concat" => liftPE (do
        let (lhs, t) ← expectCons e
        let (rhs, _) ← expectCons t
        let a ← expectString lhs
        let b ← expectString rhs
        .ok (.string (a ++ b)))
    | "string_substr" => liftPE (do
        let (s0, t) ← expectCons e
        let (pos, u) ← expectCons t
        let (len, _) ← expectCons u
        let sv ← expectString s0
        let posv ← expectNat64 pos
        let lenv ← expectNat64 len
        .ok (.string ⟨(sv.data.drop (min posv sv.length)).take lenv⟩))
    | "string_eq" => liftPE (do
        let (lhs, t) ← expectCons e
        let (rhs, _) ← expectCons t
        let a ← expectString lhs
        let b ← expectString rhs
        .ok (.bool (a == b)))
    | "minus" => liftPE (unaryNat (fun v => (2 ^ 64 - v % 2 ^ 64) % 2 ^ 64) e)
    | "add" => liftPE (binNat (fun a b => .ok ((a + b) % 2 ^ 64)) e)
    | "sub" => liftPE (binNat (fun a b => .ok ((2 ^ 64 + a - b % 2 ^ 64) % 2 ^ 64)) e)
    | "mul" => liftPE (binNat (fun a b => .ok ((a * b) % 2 ^ 64)) e)
    | "div" => liftPE (binNat
        (fun a b => if b = 0 then .error .undefinedBehavior else .ok (a / b)) e)
    | "mod" => liftPE (binNat
        (fun a b => if b = 0 then .error .undefinedBehavior else .ok (a % b)) e)
    | "le" => liftPE (binNatPred (fun a b => decide (a ≤ b)) e)
    | "lt" => liftPE (binNatPred (fun a b => decide (a < b)) e)
    | "ge" => liftPE (binNatPred (fun a b => decide (b ≤ a)) e)
    | "gt" => liftPE (binNatPred (fun a b => decide (b < a)) e)
    | "eq" => liftPE (binNatPred (fun a b => a == b) e)
    | "neq" => liftPE (binNatPred (fun a b => !(a == b)) e)
    | "not" => liftPE (unaryBool (fun b => !b) e)
    | "and" => liftPE (binBool (fun a b => a && b) e)
    | "or" => liftPE (binBool (fun a b => a || b) e)
    | "implies" => liftPE (binBool (fun a b => !a || b) e)
    | "iff" => liftPE (binBool (fun a b => a == b) e)
    | "print" => liftPE (do
        let (h, _) ← expectCons e
        .ok (.string (toStr h)))
    | "display" => liftPE (do
        -- the write to standard output is not modelled
        let (h, _) ← expectCons e
        let _ ← expectString h
        .ok Tree.unit)
    | "debug_save_file" => liftPE (do
        -- the file write is not modelled and the environment-dependent
        -- open-failure branch is never taken here
        let (lhs, t) ← expectCons e
        let (rhs, _) ← expectCons t
        let _ ← expectString lhs
        let _ ← expectString rhs
        .ok Tree.unit)
    | _ => mthrow .invariantViolation
termination_by structural fuel

end

/-- An Earley state as stored in a forest cell: start position, rule ID and
progress (interface description of the spec; the parser itself is a black
box outside src). -/
structure EarleyItem where
  startPos : Nat
  rule : Nat
  progress : Nat
deriving DecidableEq, Repr

/-- A back-link child: a token leaf or another forest location (pos, i). -/
inductive ChildLink where
  | leaf
  | node (pos i : Nat)
deriving DecidableEq, Repr

/-- One forest cell: an Earley state and its back-link pairs (prev, child). -/
structure ForestCell where
  item : EarleyItem
  links : List ((Nat × Nat) × ChildLink)
deriving DecidableEq, Repr

/-- The parser data the resolver reads: the forest indexed as forest[pos][i],
the token sentence (pattern ID and lexeme per token), and the rule table
getRule consults, each rule a left-hand side (symbol, precedence) with its
right-hand side list. -/
structure ParserData where
  forest : List (List ForestCell)
  sentence : List (Nat × String)
  rules : List ((Nat × Nat) × List (Nat × Nat))
deriving DecidableEq, Repr

/-- The reserved start symbol ID (Evaluator::StartSymbol = 1). -/
def StartSymbol : Nat := 1

/-- Evaluator::resolve(Location, right, maxDepth) (lines 565 to 592).  The
depth budget is decremented exactly as in the source (entering a child link
only); the extra fuel argument is the embedding's termination device for the
same-depth recursion into prev links, and out-of-range forest accesses (which
the source never checks) materialize nothing.  When the cell's progress is
zero the rule name is consed onto every accumulated right list; otherwise
every back-link contributes the resolutions of prev applied to child-extended
accumulators, concatenated in link order. -/
def resolveLoc (pd : ParserData) (ruleNames patternNames : List String) :
    Nat → Nat × Nat → List Tree → Nat → List Tree
  | 0, _, _, _ => []
  | fuel + 1, loc, right, maxDepth =>
    if maxDepth = 0 then []
    else
      match (pd.forest.getD loc.1 [])[loc.2]? with
      | none => []
      | some cell =>
        if cell.item.progress = 0 then
          right.map (fun r => .cons (.symbol (ruleNames.getD cell.item.rule "")) r)
        else
          (cell.links.map (fun lk =>
            let child : List Tree :=
              match lk.2 with
              | .leaf =>
                let tok := pd.sentence.getD (loc.1 - 1) (0, "")
                [.cons (.symbol (patternNames.getD tok.1 ""))
                   (.cons (.string tok.2) .nil)]
              | .node cpos ci =>
                resolveLoc pd ruleNames patternNames fuel (cpos, ci) [.nil]
                  (maxDepth - 1)
            let curr := child.flatMap (fun c => right.map (fun r => .cons c r))
            resolveLoc pd ruleNames patternNames fuel lk.1 curr maxDepth)).flatten
termination_by structural f _ _ _ => f

/-- Evaluator::resolve(maxDepth) (lines 594 to 621): iterate over the forest
cells at the sentence-end position, keep the completed start-symbol items
that span the whole input, and concatenate their materializations. -/
def resolveAll (pd : ParserData) (ruleNames patternNames : List String)
    (fuel maxDepth : Nat) : List Tree :=
  let pos := pd.sentence.length
  (List.range (pd.forest.getD pos []).length).flatMap (fun i =>
    match (pd.forest.getD pos [])[i]? with
    | none => []
    | some cell =>
      let rl := pd.rules.getD cell.item.rule ((0, 0), [])
      if cell.item.startPos = 0 ∧ rl.1.1 = StartSymbol ∧
          cell.item.progress = rl.2.length then
        resolveLoc pd ruleNames patternNames fuel (pos, i) [.nil] maxDepth
      else [])

/-- Top level of Evaluator::resolve(maxDepth): the unreachable guard when the
sentence end lies outside the forest, then the result policy applied to the
collected trees: none materialized is the failed-to-resolve abort, exactly
one is returned, several are the ambiguity abort carrying every candidate
(the source dumps them before aborting). -/
def resolveTop (pd : ParserData) (ruleNames patternNames : List String)
    (fuel maxDepth : Nat) : Except EvalErr Tree :=
  if pd.sentence.length ≥ pd.forest.length then .error .invariantViolation
  else
    match resolveAll pd ruleNames patternNames fuel maxDepth with
    | [] => .error .resolveFailed
    | [t] => .ok t
    | ts => .error (.ambiguous ts)

/-- The completed start-symbol items at the sentence end together with their
materializations, written as the spec describes them: filter the cells at the
end position by completed-start-item, then union the resolutions.  This is
the claim-side description that resolveTop is compared against. -/
def candidates (pd : ParserData) (ruleNames patternNames : List String)
    (fuel maxDepth : Nat) : List Tree :=
  let pos := pd.sentence.length
  (((pd.forest.getD pos []).enum.filter (fun ci =>
      let rl := pd.rules.getD ci.2.item.rule ((0, 0), [])
      decide (ci.2.item.startPos = 0) && decide (rl.1.1 = StartSymbol) &&
        decide (ci.2.item.progress = rl.2.length))).map (fun ci =>
    resolveLoc pd ruleNames patternNames fuel (pos, ci.1) [.nil] maxDepth)).flatten

/-- Claim-side: a tree containing no unquote form, i.e. no cons anywhere in
it whose head is the symbol unquote. -/
def noUnquote : Tree → Bool
  | .cons h t => !decide (h = .symbol "unquote") && noUnquote h && noUnquote t
  | _ => true

/-- Claim-side: the self-evaluating variants, neither a symbol nor a cons. -/
def selfEvaluating : Tree → Bool
  | .symbol _ => false
  | .cons _ _ => false
  | _ => true

/-- Claim-side: tree size, a fuel bound for structural traversals. -/
def sizeTree : Tree → Nat
  | .cons h t => 1 + sizeTree h + sizeTree t
  | _ => 1

/-- Claim-side: cons a list of trees onto a tail tree. -/
def chain : List Tree → Tree → Tree
  | [], t => t
  | x :: l, t => .cons x (chain l t)

/-- Claim-side: whether a tree is a cons. -/
def isConsT : Tree → Bool
  | .cons _ _ => true
  | _ => false

/-- Claim-side: evaluate a list of trees in order, for side effects only,
with the same one-unit-per-element fuel pattern as beginList. -/
def evalSeq (fuel : Nat) (env : Tree) (l : List Tree) : M Unit :=
  match fuel with
  | 0 => mthrow .fuelExhausted
  | n + 1 =>
    match l with
    | [] => mret ()
    | h :: t => mbind (eval n env h) fun _ => evalSeq n env t

/-- A concrete evaluator state for closed instances: empty global
environment, no macros, freshly seeded grammar tables, empty ghost trace. -/
def freshState : Evaluator :=
  ⟨Tree.nil, [], ["_", "_"], [], [], [], Tree.nil, Tree.nil, []⟩

/-- Frame property of one monadic outcome with respect to the starting
state: the ghost trace only grows, and whenever it did not grow the whole
state is unchanged. -/
def FrameAt {α} (p : Except EvalErr α × Evaluator) (σ : Evaluator) : Prop :=
  (∃ l, p.2.effects = l ++ σ.effects) ∧ (p.2.effects = σ.effects → p.2 = σ)

/-- Claim-side: a decimal digit character. -/
def decDigit (c : Char) : Prop := '0' ≤ c ∧ c ≤ '9'

/-- Claim-side: an octal digit character. -/
def octDigit (c : Char) : Prop := '0' ≤ c ∧ c ≤ '7'

/-- Claim-side: a hexadecimal digit character. -/
def hexDigit (c : Char) : Prop :=
  ('0' ≤ c ∧ c ≤ '9') ∨ ('a' ≤ c ∧ c ≤ 'f') ∨ ('A' ≤ c ∧ c ≤ 'F')

/-- Claim-side: the digit value with default zero. -/
def digitValD (base : Nat) (c : Char) : Nat := (digitVal base c).getD 0

instance (c : Char) : Decidable (octDigit c) :=
  inferInstanceAs (Decidable ('0' ≤ c ∧ c ≤ '7'))

instance (c : Char) : Decidable (decDigit c) :=
  inferInstanceAs (Decidable ('0' ≤ c ∧ c ≤ '9'))

instance (c : Char) : Decidable (hexDigit c) :=
  inferInstanceAs
    (Decidable (('0' ≤ c ∧ c ≤ '9') ∨ ('a' ≤ c ∧ c ≤ 'f') ∨ ('A' ≤ c ∧ c ≤ 'F')))

/- ------------------------------------------------------------------ -/
/- Generic lemmas about the monad and the claim-side helpers.          -/
/- ------------------------------------------------------------------ -/

theorem mbind_assoc {α β γ} (x : M α) (f : α → M β) (g : β → M γ) (σ : Evaluator) :
    mbind (mbind x f) g σ = mbind x (fun a => mbind (f a) g) σ := by
  unfold mbind
  rcases hx : x σ with ⟨r, σ1⟩
  cases r <;> simp

theorem mbind_congr {α β} (x : M α) (f g : α → M β) (σ : Evaluator)
    (h : ∀ a σ1, f a σ1 = g a σ1) : mbind x f σ = mbind x g σ := by
  unfold mbind
  rcases hx : x σ with ⟨r, σ1⟩
  cases r <;> simp [h]

theorem chain_cons (l : List Tree) (x y : Tree) :
    ∃ a b, chain l (.cons x y) = .cons a b := by
  cases l <;> exact ⟨_, _, rfl⟩

theorem beginList_chain_aux (env x y : Tree) (k : M Tree)
    (hk : ∀ m σ, beginList (m + 1) env (.cons x y) σ = k σ)
    (l : List Tree) : ∀ fuel σ,
    beginList fuel env (chain l (.cons x y)) σ
      = mbind (evalSeq fuel env l) (fun _ => k) σ := by
  induction l with
  | nil =>
    intro fuel σ
    cases fuel with
    | zero => simp [beginList, evalSeq, mbind, mthrow]
    | succ m => simpa [evalSeq, mbind, mret] using hk m σ
  | cons h t ih =>
    intro fuel σ
    cases fuel with
    | zero => simp [beginList, evalSeq, mbind, mthrow]
    | succ m =>
      obtain ⟨a, b, hab⟩ := chain_cons t x y
      show beginList (m + 1) env (.cons h (chain t (.cons x y))) σ = _
      rw [hab]
      show mbind (eval m env h) (fun _ => beginList m env (.cons a b)) σ = _
      rw [← hab]
      have hrhs : evalSeq (m + 1) env (h :: t)
          = mbind (eval m env h) (fun _ => evalSeq m env t) := rfl
      rw [hrhs, mbind_assoc]
      exact mbind_congr _ _ _ σ (fun a2 σ2 => ih m σ2)

theorem quasiquote_id (t : Tree) : ∀ fuel σ env, noUnquote t = true →
    sizeTree t ≤ fuel → quasiquote fuel env t σ = (.ok t, σ) := by
  induction t with
  | cons h tl ihh iht =>
    intro fuel σ env hnu hsz
    simp only [noUnquote, Bool.and_eq_true, Bool.not_eq_true',
      decide_eq_false_iff_not] at hnu
    cases fuel with
    | zero => simp [sizeTree] at hsz
    | succ m =>
      have hszh : sizeTree h ≤ m := by simp [sizeTree] at hsz; omega
      have hszt : sizeTree tl ≤ m := by simp [sizeTree] at hsz; omega
      simp only [quasiquote, hnu.1.1, if_false, reduceIte]
      simp [mbind, mret, ihh m σ env hnu.1.2 hszh, iht m σ env hnu.2 hszt]
  | nil => intro fuel σ env _ hsz; cases fuel with
    | zero => simp [sizeTree] at hsz
    | succ m => simp [quasiquote, mret]
  | symbol s => intro fuel σ env _ hsz; cases fuel with
    | zero => simp [sizeTree] at hsz
    | succ m => simp [quasiquote, mret]
  | string s => intro fuel σ env _ hsz; cases fuel with
    | zero => simp [sizeTree] at hsz
    | succ m => simp [quasiquote, mret]
  | nat64 v => intro fuel σ env _ hsz; cases fuel with
    | zero => simp [sizeTree] at hsz
    | succ m => simp [quasiquote, mret]
  | bool b => intro fuel σ env _ hsz; cases fuel with
    | zero => simp [sizeTree] at hsz
    | succ m => simp [quasiquote, mret]
  | unit => intro fuel σ env _ hsz; cases fuel with
    | zero => simp [sizeTree] at hsz
    | succ m => simp [quasiquote, mret]
  | closure a b c _ _ _ => intro fuel σ env _ hsz; cases fuel with
    | zero => simp [sizeTree] at hsz
    | succ m => simp [quasiquote, mret]
  | prim i => intro fuel σ env _ hsz; cases fuel with
    | zero => simp [sizeTree] at hsz
    | succ m => simp [quasiquote, mret]

theorem eval_selfEvaluating (t : Tree) (h : selfEvaluating t = true)
    (fuel : Nat) (σ : Evaluator) (env : Tree) :
    eval (fuel + 1) env t σ = (.ok t, σ) := by
  cases t <;> simp_all [selfEvaluating, eval, mret]

/- ------------------------------------------------------------------ -/
/- Claim C4.                                                           -/
/- ------------------------------------------------------------------ -/

/-- Claim C4: for every environment, beginList on the empty list returns
Unit; on a proper list it evaluates every element but the last in order (for
side effects only, modelled by evalSeq) and returns the last element itself,
unevaluated; and when the final cons tail is not Nil it is an
expect-of-Nil error, raised after the earlier elements were evaluated. -/
theorem beginList_policy (fuel : Nat) (σ : Evaluator) (env : Tree)
    (l : List Tree) (x y : Tree) :
    beginList (fuel + 1) env .nil σ = (.ok .unit, σ) ∧
    beginList fuel env (chain l (.cons x .nil)) σ
      = mbind (evalSeq fuel env l) (fun _ => mret x) σ ∧
    (isConsT y = false → y ≠ .nil →
      beginList fuel env (chain l (.cons x y)) σ
        = mbind (evalSeq fuel env l) (fun _ => mthrow (.typeMismatch y)) σ) := by
  refine ⟨by simp [beginList, mret], ?_, fun hc hn => ?_⟩
  · exact beginList_chain_aux env x .nil (mret x)
      (fun m σ2 => by simp [beginList, mret]) l fuel σ
  · refine beginList_chain_aux env x y (mthrow (.typeMismatch y))
      (fun m σ2 => ?_) l fuel σ
    cases y <;> simp_all [beginList, isConsT, mthrow]

/-- Closed instance of claim C4 with a nonempty prefix and an improper
tail. -/
theorem beginList_policy_w :
    beginList 3 Tree.nil
        (chain [Tree.nat64 1] (.cons (Tree.nat64 2) (Tree.symbol "t")))
        freshState
      = mbind (evalSeq 3 Tree.nil [Tree.nat64 1])
          (fun _ => mthrow (.typeMismatch (Tree.symbol "t"))) freshState :=
  (beginList_policy 3 freshState Tree.nil [Tree.nat64 1] (Tree.nat64 2)
    (Tree.symbol "t")).2.2 rfl (by decide)

/- ------------------------------------------------------------------ -/
/- Claim C6.                                                           -/
/- ------------------------------------------------------------------ -/

/-- Claim C6: matching e against the pattern (quote (unquote pat)) starting
in normal mode is the same computation as matching e against pat in normal
mode: success flag, resulting bindings and error behaviour all coincide, for
every value, pattern and environment. -/
theorem matchPat_quote_unquote (e pat env : Tree) :
    matchPat e
      (.cons (.symbol "quote")
        (.cons (.cons (.symbol "unquote") (.cons pat .nil)) .nil))
      env false
    = matchPat e pat env false := by
  simp [matchPat]

/- ------------------------------------------------------------------ -/
/- Claim C7.                                                           -/
/- ------------------------------------------------------------------ -/

/-- Claim C7 (amended): looking a symbol up right after extending the
environment with it returns the new value provided that value is not the
Unit placeholder; a Unit binding reads as absent (declared but unassigned).
Extending with a different symbol is transparent, without proviso. -/
theorem lookup_extend (env : Tree) (s sp : String) (v : Tree) :
    (v ≠ .unit → lookup (extend env s v) s = some v) ∧
    lookup (extend env s .unit) s = none ∧
    (s ≠ sp → lookup (extend env sp v) s = lookup env s) := by
  refine ⟨fun hv => ?_, ?_, fun hs => ?_⟩
  · simp [lookup, extend, hv]
  · simp [lookup, extend]
  · simp [lookup, extend, Ne.symm hs]

/-- Counterexample to claim C7 as stated: binding x to the Unit value and
looking x up does not return that value, it reports the symbol as absent. -/
theorem lookup_extend_cex :
    lookup (extend Tree.nil ("x") Tree.unit) ("x") = none ∧
    (none : Option Tree) ≠ some Tree.unit := by
  exact ⟨rfl, by simp⟩

/-- Closed instance of claim C7 (amended). -/
theorem lookup_extend_w :
    lookup (extend Tree.nil ("x") (Tree.nat64 1)) ("x") = some (Tree.nat64 1) ∧
    lookup (extend Tree.nil ("y") (Tree.nat64 1)) ("x")
      = lookup Tree.nil ("x") :=
  ⟨(lookup_extend Tree.nil ("x") ("y") (Tree.nat64 1)).1 (by decide),
   (lookup_extend Tree.nil ("x") ("y") (Tree.nat64 1)).2.2 (by decide)⟩

/- ------------------------------------------------------------------ -/
/- Claim C8.                                                           -/
/- ------------------------------------------------------------------ -/

/-- Claim C8: the div and mod primitives run unguarded machine division on
their two Nat64 arguments; with a nonzero divisor they return the quotient
and remainder and leave the state alone, while a zero divisor reaches the
undefined-behaviour marker of the embedding, so the primitives are only
defined under the precondition that the divisor is nonzero. -/
theorem div_mod_unguarded (n : Nat) (σ : Evaluator) (env : Tree) (a b : Nat)
    (hb : b ≠ 0) :
    applyPrim (n + 1) ("div") env (.cons (.nat64 a) (.cons (.nat64 b) .nil)) σ
      = (.ok (none, .nat64 (a / b)), σ) ∧
    applyPrim (n + 1) ("mod") env (.cons (.nat64 a) (.cons (.nat64 b) .nil)) σ
      = (.ok (none, .nat64 (a % b)), σ) ∧
    applyPrim (n + 1) ("div") env (.cons (.nat64 a) (.cons (.nat64 0) .nil)) σ
      = (.error .undefinedBehavior, σ) ∧
    applyPrim (n + 1) ("mod") env (.cons (.nat64 a) (.cons (.nat64 0) .nil)) σ
      = (.error .undefinedBehavior, σ) := by
  refine ⟨?_, ?_, ?_, ?_⟩ <;>
    simp [applyPrim, binNat, liftPE, expectCons, expectNat64, hb,
      Bind.bind, Except.bind, Except.map]

/-- Closed instance of claim C8. -/
theorem div_mod_unguarded_w :
    applyPrim 2 ("div") Tree.nil
        (.cons (.nat64 7) (.cons (.nat64 2) .nil)) freshState
      = (.ok (none, .nat64 3), freshState) :=
  (div_mod_unguarded 1 freshState Tree.nil 7 2 (by decide)).1

/- ------------------------------------------------------------------ -/
/- Claim C9.                                                           -/
/- ------------------------------------------------------------------ -/

/-- Claim C9: a cond application of the two-element shape (cond test iftrue)
with no else branch evaluates to Unit whenever the test evaluates to the
false boolean: the missing branch defaults to the Unit singleton, which the
driving loop then tail-calls into and returns.  The head is the cond
primitive value (registry index 1), which is what the head of any cond
application evaluates to. -/
theorem cond_no_else_false (n : Nat) (σ σ1 : Evaluator) (env test iftrue : Tree)
    (h : eval n env test σ = (.ok (.bool false), σ1)) :
    eval (n + 2) env
      (.cons (.prim 1) (.cons test (.cons iftrue .nil))) σ
      = (.ok .unit, σ1) := by
  show eval (n + 1 + 1) env _ σ = _
  simp [eval, applyPrim, mbind, mret, liftExc, expectCons, expectBool,
    primRegistry, h]

/-- Closed instance of claim C9. -/
theorem cond_no_else_false_w :
    eval 3 Tree.nil
        (.cons (.prim 1) (.cons (Tree.bool false) (.cons (Tree.nat64 7) .nil)))
        freshState
      = (.ok .unit, freshState) :=
  cond_no_else_false 1 freshState freshState Tree.nil (Tree.bool false)
    (Tree.nat64 7) rfl

/- ------------------------------------------------------------------ -/
/- Claim C10.                                                          -/
/- ------------------------------------------------------------------ -/

/-- Claim C10: the unary minus primitive on a Nat64 argument n returns
Nat64 of (2 ^ 64 - n) mod 2 ^ 64, wrapping modulo 2 ^ 64 instead of failing
on nonzero input, and minus of 0 returns 0. -/
theorem minus_wraps (n : Nat) (σ : Evaluator) (env : Tree) (v : Nat)
    (hv : v < 2 ^ 64) :
    applyPrim (n + 1) ("minus") env (.cons (.nat64 v) .nil) σ
      = (.ok (none, .nat64 ((2 ^ 64 - v) % 2 ^ 64)), σ) ∧
    applyPrim (n + 1) ("minus") env (.cons (.nat64 0) .nil) σ
      = (.ok (none, .nat64 0), σ) := by
  constructor <;>
    simp [applyPrim, unaryNat, liftPE, expectCons, expectNat64,
      Bind.bind, Except.bind, Except.map]
  omega

/-- Closed instance of claim C10. -/
theorem minus_wraps_w :
    applyPrim 2 ("minus") Tree.nil (.cons (.nat64 5) .nil) freshState
      = (.ok (none, .nat64 ((2 ^ 64 - 5) % 2 ^ 64)), freshState) :=
  (minus_wraps 1 freshState Tree.nil 5 (by decide)).1

/- ------------------------------------------------------------------ -/
/- Claim C3.                                                           -/
/- ------------------------------------------------------------------ -/

/-- Claim C3 (amended): for every environment and every tree t containing no
unquote form, quasiquote leaves t unchanged (and touches neither the state
nor the environment); the full round trip eval(env, quasiquote(env, t)) = t
holds additionally for every self-evaluating t, i.e. when t is neither a
symbol (which eval would resolve in the environment) nor a cons (which eval
would apply as a function). -/
theorem quasiquote_roundtrip (fuel : Nat) (σ : Evaluator) (env t : Tree)
    (hnu : noUnquote t = true) (hsz : sizeTree t ≤ fuel) :
    quasiquote fuel env t σ = (.ok t, σ) ∧
    (selfEvaluating t = true → eval fuel env t σ = (.ok t, σ)) := by
  refine ⟨quasiquote_id t fuel σ env hnu hsz, fun hse => ?_⟩
  cases fuel with
  | zero => simp [sizeTree] at hsz; cases t <;> simp [sizeTree] at hsz
  | succ m => exact eval_selfEvaluating t hse m σ env

/-- Counterexample to claim C3 as stated: the symbol x contains no unquote
form and quasiquote leaves it unchanged, yet evaluating it in the empty
environment is an unbound-symbol error, not the symbol itself, so
eval(env, quasiquote(env, t)) = t fails without a restriction on the
variant of t. -/
theorem quasiquote_roundtrip_cex :
    noUnquote (Tree.symbol "x") = true ∧
    quasiquote 2 Tree.nil (Tree.symbol "x") freshState
      = (.ok (Tree.symbol "x"), freshState) ∧
    eval 2 Tree.nil (Tree.symbol "x") freshState
      = (.error (.unboundSymbol "x"), freshState) ∧
    (Except.error (EvalErr.unboundSymbol "x") : Except EvalErr Tree)
      ≠ .ok (Tree.symbol "x") := by
  refine ⟨rfl, rfl, by decide, by simp⟩

/- ------------------------------------------------------------------ -/
/- Claim C2.                                                           -/
/- ------------------------------------------------------------------ -/

theorem digitVal_oct (c : Char) (h : octDigit c) :
    digitVal 8 c = some (c.toNat - 48) := by
  obtain ⟨h0, h7⟩ := h
  have hn0 : 48 ≤ c.toNat := Char.le_def.mp h0
  have hn7 : c.toNat ≤ 55 := Char.le_def.mp h7
  have h9 : c ≤ '9' := le_trans h7 (by decide)
  unfold digitVal
  rw [if_pos ⟨h0, h9, by omega⟩]

theorem digitVal_dec (c : Char) (h : decDigit c) :
    digitVal 10 c = some (c.toNat - 48) := by
  obtain ⟨h0, h9⟩ := h
  have hn0 : 48 ≤ c.toNat := Char.le_def.mp h0
  have hn9 : c.toNat ≤ 57 := Char.le_def.mp h9
  unfold digitVal
  rw [if_pos ⟨h0, h9, by omega⟩]

theorem digitVal_hex (c : Char) (h : hexDigit c) :
    (digitVal 16 c).isSome = true := by
  unfold digitVal
  rcases h with ⟨h0, h9⟩ | ⟨ha, hf⟩ | ⟨hA, hF⟩
  · have hn0 : 48 ≤ c.toNat := Char.le_def.mp h0
    have hn9 : c.toNat ≤ 57 := Char.le_def.mp h9
    rw [if_pos ⟨h0, h9, by omega⟩]
    rfl
  · have hna : 97 ≤ c.toNat := Char.le_def.mp ha
    have hnf : c.toNat ≤ 102 := Char.le_def.mp hf
    have h1 : ¬('0' ≤ c ∧ c ≤ '9' ∧ c.toNat - 48 < 16) := by
      rintro ⟨_, h9, _⟩
      have h57 : c.toNat ≤ 57 := Char.le_def.mp h9
      omega
    have h2 : 'a' ≤ c ∧ c ≤ 'z' ∧ c.toNat - 87 < 16 :=
      ⟨ha, le_trans hf (by decide), by omega⟩
    rw [if_neg h1, if_pos h2]
    rfl
  · have hnA : 65 ≤ c.toNat := Char.le_def.mp hA
    have hnF : c.toNat ≤ 70 := Char.le_def.mp hF
    have h1 : ¬('0' ≤ c ∧ c ≤ '9' ∧ c.toNat - 48 < 16) := by
      rintro ⟨h0, _, _⟩
      have h48 : 48 ≤ c.toNat := Char.le_def.mp h0
      omega
    have h2 : ¬('a' ≤ c ∧ c ≤ 'z' ∧ c.toNat - 87 < 16) := by
      rintro ⟨ha2, _, _⟩
      have h97 : 97 ≤ c.toNat := Char.le_def.mp ha2
      omega
    have h3 : 'A' ≤ c ∧ c ≤ 'Z' ∧ c.toNat - 55 < 16 :=
      ⟨hA, le_trans hF (by decide), by omega⟩
    rw [if_neg h1, if_neg h2, if_pos h3]
    rfl

/-- The digit-run fold of strtoull computes the base-b value of the digit
word, little-endian via Nat.ofDigits. -/
theorem parseDigitsAcc_spec (b : Nat) (l : List Char)
    (h : ∀ c ∈ l, (digitVal b c).isSome = true) : ∀ acc,
    parseDigitsAcc b l acc
      = Nat.ofDigits b ((l.map (digitValD b)).reverse) + acc * b ^ l.length := by
  induction l with
  | nil => intro acc; simp [parseDigitsAcc, Nat.ofDigits_nil]
  | cons c t ih =>
    intro acc
    obtain ⟨d, hd⟩ := Option.isSome_iff_exists.mp (h c (by simp))
    have ht : ∀ c2 ∈ t, (digitVal b c2).isSome = true :=
      fun c2 hc2 => h c2 (by simp [hc2])
    simp only [parseDigitsAcc, hd]
    rw [ih ht (acc * b + d)]
    simp only [List.map_cons, List.reverse_cons, Nat.ofDigits_append,
      List.length_reverse, List.length_map, List.length_cons]
    have hdv : digitValD b c = d := by simp [digitValD, hd]
    simp [hdv, Nat.ofDigits_cons, Nat.ofDigits_nil]
    ring

theorem stoullSign_digit (c : Char) (l : List Char)
    (h1 : c ≠ '-') (h2 : c ≠ '+') : stoullSign (c :: l) = (false, c :: l) := by
  unfold stoullSign
  split
  · rename_i heq; rw [List.cons.injEq] at heq; exact absurd heq.1 h1
  · rename_i heq; rw [List.cons.injEq] at heq; exact absurd heq.1 h2
  · rfl

theorem stoullBase_zero (l : List Char)
    (hx : ∀ x d rest, l = x :: d :: rest →
      ¬((x = 'x' ∨ x = 'X') ∧ (digitVal 16 d).isSome = true)) :
    stoullBase ('0' :: l) = (8, '0' :: l) := by
  match l with
  | [] => rfl
  | [x] => rfl
  | x :: d :: rest =>
    simp only [stoullBase]
    rw [if_neg (hx x d rest rfl)]

theorem stoullBase_dec (c : Char) (l : List Char) (h : c ≠ '0') :
    stoullBase (c :: l) = (10, c :: l) := by
  unfold stoullBase
  split
  · rename_i heq; rw [List.cons.injEq] at heq; exact absurd heq.1 h
  · rename_i heq; rw [List.cons.injEq] at heq; exact absurd heq.1 h
  · rfl

/-- A leading zero followed by octal digits parses silently in base 8. -/
theorem stoull_octal (l : List Char)
    (hd : ∀ c ∈ l, octDigit c)
    (hv : Nat.ofDigits 8 ((l.map (digitValD 8)).reverse) < 2 ^ 64) :
    stoullBase0 ⟨'0' :: l⟩
      = .ok (Nat.ofDigits 8 ((l.map (digitValD 8)).reverse)) := by
  have hsome : ∀ c ∈ l, (digitVal 8 c).isSome = true := by
    intro c hc
    rw [digitVal_oct c (hd c hc)]
    rfl
  have h0 : ('0' :: l).dropWhile isSpaceChar = '0' :: l := by
    rw [List.dropWhile_cons]
    simp [isSpaceChar]
  have h1 := stoullSign_digit '0' l (by decide) (by decide)
  have h2 : stoullBase ('0' :: l) = (8, '0' :: l) := by
    refine stoullBase_zero l (fun x d rest hl => ?_)
    rintro ⟨hxor, _⟩
    have hox : octDigit x := hd x (by rw [hl]; simp)
    rcases hxor with rfl | rfl
    · exact absurd hox (by unfold octDigit; decide)
    · exact absurd hox (by unfold octDigit; decide)
  have hp : parseDigitsAcc 8 ('0' :: l) 0
      = Nat.ofDigits 8 ((l.map (digitValD 8)).reverse) := by
    have hdv0 : digitVal 8 '0' = some 0 := by decide
    have hstep : parseDigitsAcc 8 ('0' :: l) 0 = parseDigitsAcc 8 l 0 := by
      simp only [parseDigitsAcc, hdv0]
    rw [hstep, parseDigitsAcc_spec 8 l hsome 0]
    simp
  have hdv0 : digitVal 8 '0' = some 0 := by decide
  simp only [stoullBase0, h0, h1, h2, hdv0, hp]
  rw [if_neg (by omega)]
  simp

/-- A string of decimal digits with a nonzero first digit parses in base
10. -/
theorem stoull_decimal (c : Char) (l : List Char) (hc : decDigit c)
    (hc0 : c ≠ '0') (hd : ∀ c2 ∈ l, decDigit c2)
    (hv : Nat.ofDigits 10 (((c :: l).map (digitValD 10)).reverse) < 2 ^ 64) :
    stoullBase0 ⟨c :: l⟩
      = .ok (Nat.ofDigits 10 (((c :: l).map (digitValD 10)).reverse)) := by
  have hsome : ∀ c2 ∈ (c :: l), (digitVal 10 c2).isSome = true := by
    intro c2 hc2
    rcases List.mem_cons.mp hc2 with rfl | hc2
    · rw [digitVal_dec c2 hc]; rfl
    · rw [digitVal_dec c2 (hd c2 hc2)]; rfl
  have hb0 : 48 ≤ c.toNat := Char.le_def.mp hc.1
  have hb9 : c.toNat ≤ 57 := Char.le_def.mp hc.2
  have h0 : (c :: l).dropWhile isSpaceChar = c :: l := by
    rw [List.dropWhile_cons]
    have : isSpaceChar c = false := by
      unfold isSpaceChar
      simp only [decide_eq_false_iff_not]
      rintro (rfl | ⟨hs1, hs2⟩)
      · exact absurd hb0 (by decide)
      · omega
    simp [this]
  have h1 : stoullSign (c :: l) = (false, c :: l) := by
    refine stoullSign_digit c l ?_ ?_
    · rintro rfl; revert hb0; decide
    · rintro rfl; revert hb0; decide
  have h2 : stoullBase (c :: l) = (10, c :: l) := stoullBase_dec c l hc0
  obtain ⟨dv, hdv⟩ := Option.isSome_iff_exists.mp (hsome c (by simp))
  have hp : parseDigitsAcc 10 (c :: l) 0
      = Nat.ofDigits 10 (((c :: l).map (digitValD 10)).reverse) := by
    rw [parseDigitsAcc_spec 10 (c :: l) hsome 0]
    simp
  simp only [stoullBase0, h0, h1, h2, hdv, hp]
  rw [if_neg (by omega)]
  simp

/-- A 0x or 0X prefix followed by hexadecimal digits parses in base 16. -/
theorem stoull_hex (x d : Char) (l : List Char) (hx : x = 'x' ∨ x = 'X')
    (hd : ∀ c2 ∈ (d :: l), hexDigit c2)
    (hv : Nat.ofDigits 16 (((d :: l).map (digitValD 16)).reverse) < 2 ^ 64) :
    stoullBase0 ⟨'0' :: x :: d :: l⟩
      = .ok (Nat.ofDigits 16 (((d :: l).map (digitValD 16)).reverse)) := by
  have hsome : ∀ c2 ∈ (d :: l), (digitVal 16 c2).isSome = true :=
    fun c2 hc2 => digitVal_hex c2 (hd c2 hc2)
  have h0 : ('0' :: x :: d :: l).dropWhile isSpaceChar = '0' :: x :: d :: l := by
    rw [List.dropWhile_cons]
    simp [isSpaceChar]
  have h1 := stoullSign_digit '0' (x :: d :: l) (by decide) (by decide)
  have h2 : stoullBase ('0' :: x :: d :: l) = (16, d :: l) := by
    simp only [stoullBase]
    rw [if_pos ⟨hx, hsome d (by simp)⟩]
  obtain ⟨dv, hdv⟩ := Option.isSome_iff_exists.mp (hsome d (by simp))
  have hp : parseDigitsAcc 16 (d :: l) 0
      = Nat.ofDigits 16 (((d :: l).map (digitValD 16)).reverse) := by
    rw [parseDigitsAcc_spec 16 (d :: l) hsome 0]
    simp
  simp only [stoullBase0, h0, h1, h2, hdv, hp]
  rw [if_neg (by omega)]
  simp

theorem applyPrim_string_nat64 (n : Nat) (σ : Evaluator) (env : Tree) (s : String) :
    applyPrim (n + 1) ("string_nat64") env (.cons (.string s) .nil) σ
      = ((stoullBase0 s).map (fun v => ((none : Option Tree), Tree.nat64 v)), σ) := by
  cases hs : stoullBase0 s <;>
    simp [applyPrim, liftPE, expectCons, expectString, hs,
      Bind.bind, Except.bind, Except.map]

/-- Claim C2 (amended): string_nat64 is std::stoull with base auto-detection:
a 0x or 0X prefix selects hexadecimal, otherwise a leading 0 selects octal,
otherwise decimal.  A string with a leading 0 and no x is therefore parsed
silently as octal rather than failing. -/
theorem string_nat64_base_autodetect (n : Nat) (σ : Evaluator) (env : Tree)
    (s : String) (c x : Char) (l : List Char) :
    applyPrim (n + 1) ("string_nat64") env (.cons (.string s) .nil) σ
      = ((stoullBase0 s).map (fun v => ((none : Option Tree), Tree.nat64 v)), σ) ∧
    ((∀ c2 ∈ l, octDigit c2) →
      Nat.ofDigits 8 ((l.map (digitValD 8)).reverse) < 2 ^ 64 →
      stoullBase0 ⟨'0' :: l⟩
        = .ok (Nat.ofDigits 8 ((l.map (digitValD 8)).reverse))) ∧
    (decDigit c → c ≠ '0' → (∀ c2 ∈ l, decDigit c2) →
      Nat.ofDigits 10 (((c :: l).map (digitValD 10)).reverse) < 2 ^ 64 →
      stoullBase0 ⟨c :: l⟩
        = .ok (Nat.ofDigits 10 (((c :: l).map (digitValD 10)).reverse))) ∧
    ((x = 'x' ∨ x = 'X') → (∀ c2 ∈ (c :: l), hexDigit c2) →
      Nat.ofDigits 16 (((c :: l).map (digitValD 16)).reverse) < 2 ^ 64 →
      stoullBase0 ⟨'0' :: x :: c :: l⟩
        = .ok (Nat.ofDigits 16 (((c :: l).map (digitValD 16)).reverse))) :=
  ⟨applyPrim_string_nat64 n σ env s,
   fun h1 h2 => stoull_octal l h1 h2,
   fun h1 h2 h3 h4 => stoull_decimal c l h1 h2 h3 h4,
   fun h1 h2 h3 => stoull_hex x c l h1 h2 h3⟩

/-- Counterexample to claim C2 as stated: the octal-form string 010 does not
fail explicitly and is not read as decimal; string_nat64 silently parses it
in base 8 and returns 8. -/
theorem string_nat64_octal_cex :
    applyPrim 1 ("string_nat64") Tree.nil (.cons (.string "010") .nil) freshState
      = (.ok (none, Tree.nat64 8), freshState) ∧ (8 : Nat) ≠ 10 :=
  ⟨rfl, by decide⟩

/-- Closed instances of claim C2 (amended): 017 is octal 15, 42 is decimal
42, 0x1F is hexadecimal 31. -/
theorem string_nat64_base_autodetect_w :
    stoullBase0 ⟨['0', '1', '7']⟩
      = .ok (Nat.ofDigits 8 ((['1', '7'].map (digitValD 8)).reverse)) ∧
    stoullBase0 ⟨['4', '2']⟩
      = .ok (Nat.ofDigits 10 ((['4', '2'].map (digitValD 10)).reverse)) ∧
    stoullBase0 ⟨['0', 'x', '1', 'F']⟩
      = .ok (Nat.ofDigits 16 ((['1', 'F'].map (digitValD 16)).reverse)) :=
  ⟨(string_nat64_base_autodetect 0 freshState Tree.nil "" '4' 'x' ['1', '7']).2.1
      (by decide) (by decide),
   (string_nat64_base_autodetect 0 freshState Tree.nil "" '4' 'x' ['2']).2.2.1
      (by decide) (by decide) (by decide) (by decide),
   (string_nat64_base_autodetect 0 freshState Tree.nil "" '1' 'x' ['F']).2.2.2
      (by decide) (by decide) (by decide)⟩

/- ------------------------------------------------------------------ -/
/- Claim C5.                                                           -/
/- ------------------------------------------------------------------ -/

theorem flatMap_fun_congr {α β : Type} (l : List α) {f g : α → List β}
    (h : ∀ a, f a = g a) : l.flatMap f = l.flatMap g := by
  induction l <;> simp [*]

theorem enumFrom_flatten {α β : Type} (cs : List α) :
    ∀ (k : Nat) (f : Nat → α → List β),
    ((List.enumFrom k cs).map (fun p => f p.1 p.2)).flatten
      = (List.range cs.length).flatMap
          (fun i => match cs[i]? with | some c => f (i + k) c | none => []) := by
  induction cs with
  | nil => intro k f; simp
  | cons c cs ih =>
    intro k f
    rw [List.length_cons, List.range_succ_eq_map, List.flatMap_cons,
      List.flatMap_map]
    simp only [List.enumFrom, List.map_cons, List.flatten_cons]
    rw [ih (k + 1) f]
    simp only [List.getElem?_cons_zero, List.getElem?_cons_succ, Nat.zero_add]
    congr 1
    refine flatMap_fun_congr _ (fun i => ?_)
    have he : i + (k + 1) = i.succ + k := by omega
    cases h : cs[i]? <;> simp [h, he]

theorem flatten_map_filter {α β : Type} (l : List α) (p : α → Bool)
    (h : α → List β) :
    ((l.filter p).map h).flatten
      = (l.map (fun a => if p a then h a else [])).flatten := by
  induction l with
  | nil => simp
  | cons a t ih => by_cases hp : p a <;> simp [hp, ih]

/-- The index loop of the top-level resolve collects exactly the union of
the materializations of the completed start-symbol items at sentence end. -/
theorem resolveAll_eq_candidates (pd : ParserData) (rn pn : List String)
    (fuel maxDepth : Nat) :
    resolveAll pd rn pn fuel maxDepth = candidates pd rn pn fuel maxDepth := by
  unfold resolveAll candidates
  rw [flatten_map_filter]
  rw [show (pd.forest.getD pd.sentence.length []).enum
      = List.enumFrom 0 (pd.forest.getD pd.sentence.length []) from rfl]
  rw [enumFrom_flatten (pd.forest.getD pd.sentence.length []) 0
    (fun i c =>
      if (decide (c.item.startPos = 0) &&
          decide ((pd.rules.getD c.item.rule ((0, 0), [])).1.1 = StartSymbol) &&
          decide (c.item.progress = (pd.rules.getD c.item.rule ((0, 0), [])).2.length))
      then resolveLoc pd rn pn fuel (pd.sentence.length, i) [.nil] maxDepth
      else [])]
  refine flatMap_fun_congr _ (fun i => ?_)
  cases h : (pd.forest.getD pd.sentence.length [])[i]? with
  | none => simp
  | some cell =>
    simp only [Nat.add_zero, Bool.and_eq_true, decide_eq_true_eq]
    split <;> split <;> simp_all

/-- Claim C5: top-level forest resolution over the completed start-symbol
items at the sentence end obeys the result policy: with no materialized tree
the outcome is the fatal parse failure; with exactly one tree that tree is
returned; with more than one the outcome is the fatal ambiguity error whose
payload is the full candidate list (the trees the source dumps to the error
channel).  The guard arm is the unreachable assertion for a sentence end
outside the forest. -/
theorem resolve_policy (pd : ParserData) (rn pn : List String)
    (fuel maxDepth : Nat) :
    resolveTop pd rn pn fuel maxDepth
      = if pd.sentence.length ≥ pd.forest.length then .error .invariantViolation
        else match candidates pd rn pn fuel maxDepth with
          | [] => .error .resolveFailed
          | [t] => .ok t
          | ts => .error (.ambiguous ts) := by
  unfold resolveTop
  rw [resolveAll_eq_candidates]

/-- Closed instance of claim C3 (amended). -/
theorem quasiquote_roundtrip_w :
    quasiquote 5 Tree.nil (Tree.nat64 3) freshState
      = (.ok (Tree.nat64 3), freshState) ∧
    eval 5 Tree.nil (Tree.nat64 3) freshState
      = (.ok (Tree.nat64 3), freshState) :=
  ⟨(quasiquote_roundtrip 5 freshState Tree.nil (Tree.nat64 3) rfl
      (by decide)).1,
   (quasiquote_roundtrip 5 freshState Tree.nil (Tree.nat64 3) rfl
      (by decide)).2 rfl⟩

/- ------------------------------------------------------------------ -/
/- Claim C1.                                                           -/
/- ------------------------------------------------------------------ -/


theorem frame_state_eq {α} (p : Except EvalErr α × Evaluator) (σ : Evaluator)
    (h : p.2 = σ) : FrameAt p σ :=
  ⟨⟨[], by rw [h]; simp⟩, fun _ => h⟩

theorem frame_mret {α} (a : α) (σ : Evaluator) : FrameAt (mret a σ) σ :=
  frame_state_eq _ σ rfl

theorem frame_mthrow {α} (er : EvalErr) (σ : Evaluator) :
    FrameAt ((mthrow er : M α) σ) σ :=
  frame_state_eq _ σ rfl

theorem frame_liftExc {α} (r : Except EvalErr α) (σ : Evaluator) :
    FrameAt (liftExc r σ) σ :=
  frame_state_eq _ σ rfl

theorem frame_liftPE (r : Except EvalErr Tree) (σ : Evaluator) :
    FrameAt (liftPE r σ) σ :=
  frame_state_eq _ σ rfl

theorem frame_mbind {α β} (x : M α) (f : α → M β) (σ : Evaluator)
    (hx : FrameAt (x σ) σ) (hf : ∀ a σ1, FrameAt (f a σ1) σ1) :
    FrameAt (mbind x f σ) σ := by
  unfold mbind
  rcases hxe : x σ with ⟨r, σ1⟩
  rw [hxe] at hx
  cases r with
  | error er => exact hx
  | ok a =>
    obtain ⟨⟨l1, hl1⟩, hb1⟩ := hx
    obtain ⟨⟨l2, hl2⟩, hb2⟩ := hf a σ1
    constructor
    · exact ⟨l2 ++ l1, by rw [hl2, hl1, List.append_assoc]⟩
    · intro heq
      have hlen : l2.length + (l1.length + σ.effects.length) = σ.effects.length := by
        have hc := congrArg List.length heq
        rw [hl2, hl1] at hc
        simpa using hc
      have hl10 : l1 = [] := List.length_eq_zero.mp (by omega)
      have hl20 : l2 = [] := List.length_eq_zero.mp (by omega)
      have hσ1 : σ1 = σ := hb1 (by rw [hl1, hl10]; rfl)
      subst hσ1
      exact hb2 (by rw [hl2, hl20]; rfl)

theorem frame_effectful_seq {β} (nm : String) (upd : Evaluator → Evaluator)
    (g : Unit → M β) (σ : Evaluator)
    (hg : ∀ σ1, ∃ l, ((g () σ1).2).effects = l ++ σ1.effects) :
    FrameAt (mbind (effectful nm upd) g σ) σ := by
  unfold mbind effectful
  obtain ⟨l, hl⟩ := hg { upd σ with effects := nm :: σ.effects }
  constructor
  · exact ⟨l ++ [nm], by rw [hl]; simp⟩
  · intro heq
    exfalso
    have hc := congrArg List.length heq
    rw [hl] at hc
    simp at hc
    omega

theorem getSymbol_effects (σ : Evaluator) (s : String) :
    (getSymbol σ s).2.effects = σ.effects := by
  unfold getSymbol
  split <;> rfl

theorem listSymbolsRun_effects (e : Tree) : ∀ σ,
    (listSymbolsRun σ e).2.effects = σ.effects := by
  induction e with
  | cons h rest _ ih =>
    intro σ
    simp only [listSymbolsRun]
    split
    · rfl
    · split <;> simp [ih, getSymbol_effects]
  | nil => intro σ; rfl
  | symbol s => intro σ; rfl
  | string s => intro σ; rfl
  | nat64 v => intro σ; rfl
  | bool b => intro σ; rfl
  | unit => intro σ; rfl
  | closure a b c _ _ _ => intro σ; rfl
  | prim i => intro σ; rfl

theorem setSyntaxPat1_effects (σ : Evaluator) (entry : Tree) :
    (setSyntaxPat1 σ entry).2.effects = σ.effects := by
  unfold setSyntaxPat1
  split
  · rfl
  · repeat' split
    all_goals simp [getSymbol_effects]

theorem setSyntaxRule1_effects (σ : Evaluator) (entry : Tree) :
    (setSyntaxRule1 σ entry).2.effects = σ.effects := by
  unfold setSyntaxRule1
  split
  · rfl
  · repeat' split
    all_goals simp [listSymbolsRun_effects, getSymbol_effects]
    all_goals (split <;> simp [listSymbolsRun_effects, getSymbol_effects])

theorem setSyntaxPats_effects (p : Tree) : ∀ σ,
    (setSyntaxPats σ p).2.effects = σ.effects := by
  induction p with
  | cons entry rest _ ih =>
    intro σ
    simp only [setSyntaxPats]
    split <;> simp [ih, setSyntaxPat1_effects]
  | nil => intro σ; rfl
  | symbol s => intro σ; rfl
  | string s => intro σ; rfl
  | nat64 v => intro σ; rfl
  | bool b => intro σ; rfl
  | unit => intro σ; rfl
  | closure a b c _ _ _ => intro σ; rfl
  | prim i => intro σ; rfl

theorem setSyntaxRules_effects (p : Tree) : ∀ σ,
    (setSyntaxRules σ p).2.effects = σ.effects := by
  induction p with
  | cons entry rest _ ih =>
    intro σ
    simp only [setSyntaxRules]
    split <;> simp [ih, setSyntaxRule1_effects]
  | nil => intro σ; rfl
  | symbol s => intro σ; rfl
  | string s => intro σ; rfl
  | nat64 v => intro σ; rfl
  | bool b => intro σ; rfl
  | unit => intro σ; rfl
  | closure a b c _ _ _ => intro σ; rfl
  | prim i => intro σ; rfl

theorem setSyntaxRun_effects (σ : Evaluator) (p r : Tree) :
    (setSyntaxRun σ p r).2.effects = σ.effects := by
  unfold setSyntaxRun
  dsimp only
  split <;> simp [setSyntaxRules_effects, setSyntaxPats_effects]



/-- Frame property of the whole interpreter, by mutual induction on fuel:
every interpreter function only extends the ghost trace, and whenever the
trace is unchanged the whole state (global environment, macro registry,
grammar tables) is exactly as at entry.  The five mutating primitives are
the only state writers and each of them records itself in the trace at the
moment it mutates. -/
theorem frameAll : ∀ n : Nat,
    (∀ env e σ, FrameAt (eval n env e σ) σ) ∧
    (∀ env e σ, FrameAt (evalList n env e σ) σ) ∧
    (∀ env e σ, FrameAt (beginList n env e σ) σ) ∧
    (∀ env e σ, FrameAt (quasiquote n env e σ) σ) ∧
    (∀ env defs σ, FrameAt (letDefs n env defs σ) σ) ∧
    (∀ env defs i cnt σ, FrameAt (letrecEval n env defs i cnt σ) σ) ∧
    (∀ name env e σ, FrameAt (applyPrim n name env e σ) σ) := by
  intro n
  induction n with
  | zero =>
    refine ⟨?_, ?_, ?_, ?_, ?_, ?_, ?_⟩ <;> intros <;>
      exact frame_state_eq _ _ rfl
  | succ n ih =>
    obtain ⟨ihEval, ihEvalList, ihBegin, ihQq, ihLet, ihLetrec, ihPrim⟩ := ih
    have hEffRet : ∀ (v : Option Tree × Tree) (σ1 : Evaluator),
        ∃ l, ((mret v σ1).2).effects = l ++ σ1.effects :=
      fun v σ1 => ⟨[], by simp [mret]⟩
    have hEval : ∀ env e σ, FrameAt (eval (n + 1) env e σ) σ := by
      intro env e σ
      cases e with
      | symbol s => exact frame_liftExc _ _
      | cons head tail =>
        simp only [eval]
        refine frame_mbind _ _ σ (ihEval env head σ) (fun ehead σ1 => ?_)
        cases ehead with
        | prim id =>
          rcases hpr : primRegistry[id]? with _ | pr
          · simp only [hpr]
            exact frame_mthrow _ _
          · simp only [hpr]
            refine frame_mbind _ _ σ1 ?_ (fun args σ2 => ?_)
            · rcases pr with ⟨nm, ev⟩
              cases ev
              · simpa using frame_mret tail σ1
              · simpa using ihEvalList env tail σ1
            · refine frame_mbind _ _ σ2 (ihPrim _ env args σ2) (fun res σ3 => ?_)
              rcases res with ⟨o, e2⟩
              cases o with
              | none => exact frame_mret _ _
              | some env2 => exact ihEval env2 e2 σ3
        | closure cenv formal es =>
          refine frame_mbind _ _ σ1 (ihEvalList env tail σ1) (fun params σ2 => ?_)
          rcases hm : matchPat params formal cenv false with er | ⟨b, env2⟩
          · exact frame_mthrow _ _
          · cases b
            · exact frame_mthrow _ _
            · refine frame_mbind _ _ σ2 (ihBegin env2 es σ2) (fun e2 σ3 => ?_)
              exact ihEval env2 e2 σ3
        | nil => exact frame_mthrow _ _
        | cons a b => exact frame_mthrow _ _
        | symbol s => exact frame_mthrow _ _
        | string s => exact frame_mthrow _ _
        | nat64 v => exact frame_mthrow _ _
        | bool b => exact frame_mthrow _ _
        | unit => exact frame_mthrow _ _
      | nil => exact frame_mret _ _
      | string s => exact frame_mret _ _
      | nat64 v => exact frame_mret _ _
      | bool b => exact frame_mret _ _
      | unit => exact frame_mret _ _
      | closure a b c => exact frame_mret _ _
      | prim i => exact frame_mret _ _
    have hEvalList : ∀ env e σ, FrameAt (evalList (n + 1) env e σ) σ := by
      intro env e σ
      cases e with
      | nil => exact frame_mret _ _
      | cons head tail =>
        simp only [evalList]
        refine frame_mbind _ _ σ (ihEval env head σ) (fun eh σ1 => ?_)
        refine frame_mbind _ _ σ1 (ihEvalList env tail σ1) (fun et σ2 => ?_)
        exact frame_mret _ _
      | symbol s => exact ihEval env _ σ
      | string s => exact ihEval env _ σ
      | nat64 v => exact ihEval env _ σ
      | bool b => exact ihEval env _ σ
      | unit => exact ihEval env _ σ
      | closure a b c => exact ihEval env _ σ
      | prim i => exact ihEval env _ σ
    have hBegin : ∀ env e σ, FrameAt (beginList (n + 1) env e σ) σ := by
      intro env e σ
      cases e with
      | nil => exact frame_mret _ _
      | cons head tail =>
        simp only [beginList]
        cases tail with
        | cons h2 t2 =>
          refine frame_mbind _ _ σ (ihEval env head σ) (fun v σ1 => ?_)
          exact ihBegin env _ σ1
        | nil => exact frame_mret _ _
        | symbol s => exact frame_mthrow _ _
        | string s => exact frame_mthrow _ _
        | nat64 v => exact frame_mthrow _ _
        | bool b => exact frame_mthrow _ _
        | unit => exact frame_mthrow _ _
        | closure a b c => exact frame_mthrow _ _
        | prim i => exact frame_mthrow _ _
      | symbol s => exact frame_mthrow _ _
      | string s => exact frame_mthrow _ _
      | nat64 v => exact frame_mthrow _ _
      | bool b => exact frame_mthrow _ _
      | unit => exact frame_mthrow _ _
      | closure a b c => exact frame_mthrow _ _
      | prim i => exact frame_mthrow _ _
    have hQq : ∀ env e σ, FrameAt (quasiquote (n + 1) env e σ) σ := by
      intro env e σ
      cases e with
      | cons head tail =>
        simp only [quasiquote]
        by_cases hu : head = .symbol ("unquote")
        · rw [if_pos hu]
          cases tail with
          | cons h2 t2 => exact ihEval env h2 σ
          | nil => exact frame_mthrow _ _
          | symbol s => exact frame_mthrow _ _
          | string s => exact frame_mthrow _ _
          | nat64 v => exact frame_mthrow _ _
          | bool b => exact frame_mthrow _ _
          | unit => exact frame_mthrow _ _
          | closure a b c => exact frame_mthrow _ _
          | prim i => exact frame_mthrow _ _
        · rw [if_neg hu]
          refine frame_mbind _ _ σ (ihQq env head σ) (fun qh σ1 => ?_)
          refine frame_mbind _ _ σ1 (ihQq env tail σ1) (fun qt σ2 => ?_)
          exact frame_mret _ _
      | nil => exact frame_mret _ _
      | symbol s => exact frame_mret _ _
      | string s => exact frame_mret _ _
      | nat64 v => exact frame_mret _ _
      | bool b => exact frame_mret _ _
      | unit => exact frame_mret _ _
      | closure a b c => exact frame_mret _ _
      | prim i => exact frame_mret _ _
    have hLet : ∀ env defs σ, FrameAt (letDefs (n + 1) env defs σ) σ := by
      intro env defs σ
      cases defs with
      | cons d rest =>
        simp only [letDefs]
        refine frame_mbind _ _ σ (frame_liftExc _ _) (fun pr1 σ1 => ?_)
        refine frame_mbind _ _ σ1 (frame_liftExc _ _) (fun pr2 σ2 => ?_)
        refine frame_mbind _ _ σ2 (frame_liftExc _ _) (fun s σ3 => ?_)
        refine frame_mbind _ _ σ3 (ihEval env _ σ3) (fun v σ4 => ?_)
        exact ihLet _ rest σ4
      | nil => exact frame_mret _ _
      | symbol s => exact frame_mret _ _
      | string s => exact frame_mret _ _
      | nat64 v => exact frame_mret _ _
      | bool b => exact frame_mret _ _
      | unit => exact frame_mret _ _
      | closure a b c => exact frame_mret _ _
      | prim i => exact frame_mret _ _
    have hLetrec : ∀ env defs i cnt σ, FrameAt (letrecEval (n + 1) env defs i cnt σ) σ := by
      intro env defs i cnt σ
      cases defs with
      | cons d rest =>
        simp only [letrecEval]
        refine frame_mbind _ _ σ (frame_liftExc _ _) (fun pr1 σ1 => ?_)
        refine frame_mbind _ _ σ1 (frame_liftExc _ _) (fun pr2 σ2 => ?_)
        refine frame_mbind _ _ σ2 (ihEval env _ σ2) (fun v σ3 => ?_)
        exact ihLetrec _ rest _ cnt σ3
      | nil => exact frame_mret _ _
      | symbol s => exact frame_mret _ _
      | string s => exact frame_mret _ _
      | nat64 v => exact frame_mret _ _
      | bool b => exact frame_mret _ _
      | unit => exact frame_mret _ _
      | closure a b c => exact frame_mret _ _
      | prim i => exact frame_mret _ _
    have hPrim : ∀ name env e σ, FrameAt (applyPrim (n + 1) name env e σ) σ := by
      intro name env e σ
      simp only [applyPrim]
      split
      all_goals try exact frame_liftPE _ _
      all_goals try exact frame_mret _ _
      all_goals try exact frame_state_eq _ _ rfl
      -- cond
      · refine frame_mbind _ _ σ (frame_liftExc _ _) (fun pr1 σ1 => ?_)
        refine frame_mbind _ _ σ1 (frame_liftExc _ _) (fun pr2 σ2 => ?_)
        refine frame_mbind _ _ σ2 (ihEval env _ σ2) (fun tv σ3 => ?_)
        refine frame_mbind _ _ σ3 (frame_liftExc _ _) (fun b σ4 => ?_)
        exact frame_mret _ _
      -- quote
      · refine frame_mbind _ _ σ (frame_liftExc _ _) (fun pr σ1 => ?_)
        refine frame_mbind _ _ σ1 (ihQq env _ σ1) (fun v σ2 => ?_)
        exact frame_mret _ _
      -- unquote
      · refine frame_mbind _ _ σ (frame_liftExc _ _) (fun pr σ1 => ?_)
        refine frame_mbind _ _ σ1 (ihEval env _ σ1) (fun v σ2 => ?_)
        exact frame_mret _ _
      -- match
      · refine frame_mbind _ _ σ (frame_liftExc _ _) (fun pr1 σ1 => ?_)
        refine frame_mbind _ _ σ1 (frame_liftExc _ _) (fun pr2 σ2 => ?_)
        refine frame_mbind _ _ σ2 (ihEval env _ σ2) (fun target σ3 => ?_)
        rcases matchClauses target env pr2.1 with er | ⟨newEnv, expr⟩
        · exact frame_mthrow _ _
        · exact frame_mret _ _
      -- let
      · refine frame_mbind _ _ σ (frame_liftExc _ _) (fun pr σ1 => ?_)
        refine frame_mbind _ _ σ1 (ihLet env _ σ1) (fun env2 σ2 => ?_)
        refine frame_mbind _ _ σ2 (ihBegin env2 _ σ2) (fun e2 σ3 => ?_)
        exact frame_mret _ _
      -- letrec
      · refine frame_mbind _ _ σ (frame_liftExc _ _) (fun pr σ1 => ?_)
        refine frame_mbind _ _ σ1 (frame_liftExc _ _) (fun ic σ2 => ?_)
        refine frame_mbind _ _ σ2 (ihLetrec _ _ _ _ σ2) (fun env2 σ3 => ?_)
        refine frame_mbind _ _ σ3 (ihBegin env2 _ σ3) (fun e2 σ4 => ?_)
        exact frame_mret _ _
      -- define
      · refine frame_mbind _ _ σ (frame_liftExc _ _) (fun pr1 σ1 => ?_)
        refine frame_mbind _ _ σ1 (frame_liftExc _ _) (fun pr2 σ2 => ?_)
        refine frame_mbind _ _ σ2 (frame_liftExc _ _) (fun s σ3 => ?_)
        refine frame_mbind _ _ σ3 (ihEval env _ σ3) (fun v σ4 => ?_)
        exact frame_effectful_seq _ _ _ σ4 (hEffRet _)
      -- define_macro
      · refine frame_mbind _ _ σ (frame_liftExc _ _) (fun pr1 σ1 => ?_)
        refine frame_mbind _ _ σ1 (frame_liftExc _ _) (fun pr2 σ2 => ?_)
        refine frame_mbind _ _ σ2 (frame_liftExc _ _) (fun s σ3 => ?_)
        refine frame_mbind _ _ σ3 (ihEval env _ σ3) (fun v σ4 => ?_)
        refine frame_mbind _ _ σ4 (frame_liftExc _ _) (fun cl σ5 => ?_)
        exact frame_effectful_seq _ _ _ σ5 (hEffRet _)
      -- set
      · refine frame_mbind _ _ σ (frame_liftExc _ _) (fun pr1 σ1 => ?_)
        refine frame_mbind _ _ σ1 (frame_liftExc _ _) (fun pr2 σ2 => ?_)
        refine frame_mbind _ _ σ2 (ihEval env _ σ2) (fun v σ3 => ?_)
        refine frame_mbind _ _ σ3 (frame_liftExc _ _) (fun s σ4 => ?_)
        refine frame_mbind _ _ σ4 (frame_liftExc _ _) (fun found σ5 => ?_)
        cases found
        · exact frame_mthrow _ _
        · exact frame_effectful_seq _ _ _ σ5 (hEffRet _)
      -- begin
      · refine frame_mbind _ _ σ (ihBegin env _ σ) (fun e2 σ1 => ?_)
        exact frame_mret _ _
      -- eval
      · refine frame_mbind _ _ σ (frame_liftExc _ _) (fun pr σ1 => ?_)
        exact frame_mret _ _
      -- set_syntax
      · refine frame_mbind _ _ σ (frame_liftExc _ _) (fun pr1 σ1 => ?_)
        refine frame_mbind _ _ σ1 (frame_liftExc _ _) (fun pr2 σ2 => ?_)
        refine frame_effectful_seq _ _ _ σ2 (fun σ3 => ⟨[], ?_⟩)
        unfold mbind
        rcases hss : setSyntaxRun σ3 pr1.1 pr2.1 with ⟨r, σ4⟩
        have hse := setSyntaxRun_effects σ3 pr1.1 pr2.1
        rw [hss] at hse
        simp only [List.nil_append]
        rw [hss]
        cases r <;> simpa [mret] using hse
      -- set_global_env
      · refine frame_mbind _ _ σ (frame_liftExc _ _) (fun pr σ1 => ?_)
        exact frame_effectful_seq _ _ _ σ1 (hEffRet _)
      -- string_nat64 and other liftPE forms are closed above
    exact ⟨hEval, hEvalList, hBegin, hQq, hLet, hLetrec, hPrim⟩



/-- Claim C1 (amended): if evaluation of a statement fails and the
statement performed none of define, define_macro, set, set_syntax or
set_global_env before failing (its ghost trace is unchanged), then the
global environment, the grammar state, the macro registry and the (anyway
immutable after construction) primitive registry are exactly as they were
at the start of the statement; otherwise the recorded side effects
persist, as the counterexample shows for define_macro. -/
theorem eval_fail_no_effects_state_unchanged (n : Nat) (env e : Tree)
    (σ σ1 : Evaluator) (er : EvalErr)
    (h : eval n env e σ = (.error er, σ1))
    (hnoeff : σ1.effects = σ.effects) :
    σ1 = σ := by
  have hf := (frameAll n).1 env e σ
  rw [h] at hf
  exact hf.2 hnoeff

/-- Closed instance of claim C1 (amended): an unbound-symbol failure with
an empty trace leaves the state untouched. -/
theorem eval_fail_no_effects_state_unchanged_w :
    freshState = freshState ∧
    eval 1 Tree.nil (Tree.symbol ("zz")) freshState
      = (.error (.unboundSymbol ("zz")), freshState) :=
  ⟨eval_fail_no_effects_state_unchanged 1 Tree.nil (Tree.symbol ("zz"))
      freshState freshState (.unboundSymbol ("zz")) rfl rfl,
   rfl⟩

/-- Counterexample to claim C1 as stated: the statement
(begin (define_macro m (lambda x x)) zz) fails with an unbound symbol and
performed none of the four operations the claim lists (define, set,
set_syntax, set_global_env) - its trace holds only define_macro - yet the
macro registry differs from its state at the start of the statement, so
the claimed restoration guarantee is false without listing define_macro
among the excluded operations. -/
theorem eval_fail_effects_persist_cex :
    (eval 8 Tree.nil
        (Tree.cons (.symbol "begin") (.cons
          (Tree.cons (.symbol "define_macro") (.cons (.symbol "m")
            (.cons (Tree.cons (.symbol "lambda") (.cons (.symbol "x")
              (.cons (.symbol "x") .nil))) .nil)))
          (.cons (.symbol "zz") .nil)))
        freshState).1
      = Except.error (.unboundSymbol "zz") ∧
    (eval 8 Tree.nil
        (Tree.cons (.symbol "begin") (.cons
          (Tree.cons (.symbol "define_macro") (.cons (.symbol "m")
            (.cons (Tree.cons (.symbol "lambda") (.cons (.symbol "x")
              (.cons (.symbol "x") .nil))) .nil)))
          (.cons (.symbol "zz") .nil)))
        freshState).2.effects = ["define_macro"] ∧
    (eval 8 Tree.nil
        (Tree.cons (.symbol "begin") (.cons
          (Tree.cons (.symbol "define_macro") (.cons (.symbol "m")
            (.cons (Tree.cons (.symbol "lambda") (.cons (.symbol "x")
              (.cons (.symbol "x") .nil))) .nil)))
          (.cons (.symbol "zz") .nil)))
        freshState).2.macros ≠ freshState.macros := by
  refine ⟨rfl, rfl, ?_⟩
  decide


end Eval
